import Mathlib

/-!
Shallow embedding of curtin's storage-configuration dependency resolver
(`curtin/storage_config.py`) and partition-table layout engine
(`curtin/commands/block_meta_v2.py`), together with theorems checking the
natural-language specification against this embedding.

Modelling conventions:
* Python `dict`/`OrderedDict` values are modelled as insertion-ordered
  association lists (`List (String × _)`); Python dict keys are unique, so
  meaningful inputs carry `Nodup` hypotheses where the proofs need them.
* Python exceptions are modelled with `Except Err`; distinct raise sites map
  to distinct `Err` values.  Recursive functions that can diverge in Python
  take a fuel argument; exhausted fuel is the distinguished `Err.outOfFuel`.
* Python unbounded non-negative integers (sector counts, byte counts,
  partition numbers) are modelled as `Nat`.
* Human-readable sizes are converted by `curtin.util.human2bytes`, which is
  outside the modelled sources; actions here carry byte counts directly, so
  `bytes2sectors` is plain floor division by the sector size.
-/

/-- Python exception outcomes, one constructor per kind of raise site. -/
inductive Err where
  | outOfFuel
  | valueError (msg : String)
  | keyError
  | typeError
  | indexError
  | exception (msg : String)
deriving DecidableEq, Repr

/-- Field values stored in a storage-configuration item: strings (ids, paths,
names, flags), integers (partition numbers, sizes), lists of ids (e.g.
`raid.devices`), or booleans (e.g. `preserve`). -/
inductive Value where
  | s (v : String)
  | n (v : Int)
  | l (v : List String)
  | b (v : Bool)
deriving DecidableEq, Repr

/-- One storage-configuration item: a mapping of named fields.  Every item in
a valid configuration carries `id` and `type`; the remaining fields live in
`fields`. -/
structure Item where
  id : String
  type : String
  fields : List (String × Value) := []
deriving DecidableEq, Repr

/-- Python `item_cfg.get(key)`: `id` and `type` are ordinary keys of the
underlying dict. -/
def Item.get (it : Item) (k : String) : Option Value :=
  if k == "id" then some (.s it.id)
  else if k == "type" then some (.s it.type)
  else it.fields.lookup k

/-- A storage configuration: the id-keyed, insertion-ordered mapping produced
by `extract_storage_ordered_dict`. -/
abbrev Config := List (String × Item)

/-- Python `config.get(item_id)` on the ordered mapping. -/
def Config.lookup (config : Config) (k : String) : Option Item :=
  List.lookup k config

/-- Builds the id-keyed ordered mapping from the configuration item list,
mirroring `OrderedDict((d["id"], d) for d in scfg)` (ids are unique in a
valid configuration). -/
def extract_storage_ordered_dict (scfg : List Item) : Config :=
  scfg.map (fun d => (d.id, d))

/-- Dependency field names per storage type (`_stype_to_deps`); `none` models
the `KeyError` a lookup of an unknown type raises.  Python iterates these as
a `set`, whose order is unspecified; the fixed order below is otherwise
faithful. -/
def _stype_to_deps : String → Option (List String)
  | "bcache" => some ["backing_device", "cache_device"]
  | "dasd" => some []
  | "disk" => some []
  | "dm_crypt" => some ["volume"]
  | "format" => some ["volume"]
  | "lvm_partition" => some ["volgroup"]
  | "lvm_volgroup" => some ["devices"]
  | "mount" => some ["device"]
  | "partition" => some ["device"]
  | "raid" => some ["devices", "spare_devices", "container"]
  | "zfs" => some ["pool"]
  | "zpool" => some ["vdevs"]
  | _ => none

/-- Sort-order field per storage type (`_stype_to_order_key`); every order
key in the source is a one-element set, modelled as the single field name.
`none` models the `ValueError` raised for an unknown type. -/
def _stype_to_order_key : String → Option String
  | "bcache" => some "name"
  | "dasd" => some "id"
  | "disk" => some "id"
  | "dm_crypt" => some "id"
  | "format" => some "id"
  | "lvm_partition" => some "name"
  | "lvm_volgroup" => some "name"
  | "mount" => some "path"
  | "partition" => some "number"
  | "raid" => some "id"
  | "zfs" => some "volume"
  | "zpool" => some "id"
  | _ => none

/-- Allowed dependency target types per source type (the `depends` table in
`_validate_dep_type`). -/
def _depends_table : String → Option (List String)
  | "bcache" => some ["bcache", "disk", "dm_crypt", "lvm_partition", "partition", "raid"]
  | "dasd" => some []
  | "disk" => some ["dasd"]
  | "dm_crypt" => some ["bcache", "disk", "dm_crypt", "lvm_partition", "partition", "raid"]
  | "format" => some ["bcache", "disk", "dm_crypt", "lvm_partition", "partition", "raid"]
  | "lvm_partition" => some ["lvm_volgroup"]
  | "lvm_volgroup" => some ["bcache", "disk", "dm_crypt", "partition", "raid"]
  | "mount" => some ["format"]
  | "partition" => some ["bcache", "disk", "raid", "partition"]
  | "raid" => some ["bcache", "disk", "dm_crypt", "lvm_partition", "partition", "raid"]
  | "zfs" => some ["zpool"]
  | "zpool" => some ["disk", "partition"]
  | _ => none

/-- `_validate_dep_type(source_id, dep_key, dep_id, sconfig)`: checks that the
dependency edge's type pair is permitted, raising `ValueError` otherwise. -/
def _validate_dep_type (source_id dep_key dep_id : String) (sconfig : Config) :
    Except Err Unit := do
  match sconfig.lookup source_id with
  | none => throw (.valueError ("Invalid source_id (" ++ source_id ++ ") not in storage config"))
  | some source_cfg =>
  match sconfig.lookup dep_id with
  | none => throw (.valueError ("Invalid dep_id (" ++ dep_id ++ ") not in storage config"))
  | some dep_cfg =>
  match _depends_table source_cfg.type with
  | none => throw (.valueError ("Invalid source_type: " ++ source_cfg.type))
  | some source_deps =>
  match _depends_table dep_cfg.type with
  | none => throw (.valueError ("Invalid type in depedency: " ++ dep_cfg.type))
  | some _ =>
  if source_deps.contains dep_cfg.type then pure ()
  else throw (.valueError (source_cfg.type ++ "(id=" ++ source_id ++ ")." ++ dep_key ++
    " cannot depend upon on " ++ dep_cfg.type ++ "(id=" ++ dep_id ++ ")"))

/-- Lexicographic comparison of code-point sequences, the order Python uses
to compare two strings. -/
def list_le : List Nat → List Nat → Bool
  | [], _ => true
  | _ :: _, [] => false
  | a :: as, b :: bs =>
    if a < b then true else if b < a then false else list_le as bs

/-- Python `a <= b` on strings: lexicographic by code point. -/
def pystr_le (a b : String) : Bool :=
  list_le (a.data.map Char.toNat) (b.data.map Char.toNat)

/-- Comparison used to model Python `sorted(..., key=itemgetter(field))`.
Python compares two strings lexicographically and two ints numerically; it
raises `TypeError` on mixed-type keys, which no valid configuration
produces — values of different shapes are ordered here by constructor so
that the relation is total and transitive. -/
def vle : Value → Value → Bool
  | .s a, .s b => pystr_le a b
  | .n a, .n b => a ≤ b
  | .l _, .l _ => true
  | .b a, .b b => a ≤ b
  | .s _, _ => true
  | _, .s _ => false
  | .n _, _ => true
  | _, .n _ => false
  | .l _, _ => true
  | _, .l _ => false

/-- Lifts `vle` to optional field values (a missing field raises `KeyError`
in Python; callers check presence before sorting). -/
def vleo : Option Value → Option Value → Bool
  | some a, some b => vle a b
  | none, _ => true
  | some _, none => false

/-- Sorting relation on items by the value of one field. -/
def field_le (field : String) (a b : Item) : Prop :=
  vleo (a.get field) (b.get field) = true

instance (field : String) : DecidableRel (field_le field) := fun a b =>
  decidable_of_iff (vleo (a.get field) (b.get field) = true) Iff.rfl

/-- Python's stable `sorted(cfgs, key=itemgetter(field))`; raises `KeyError`
when some item lacks the sort field. -/
def sort_by_field (field : String) (cfgs : List Item) : Except Err (List Item) :=
  if cfgs.all (fun c => (c.get field).isSome) then
    .ok (cfgs.insertionSort (field_le field))
  else .error .keyError

/-- `_find_same_dep(dep_key, dep_value, config)`: ids of every item whose
`dep_key` field equals the referenced value. -/
def _find_same_dep (dep_key : String) (dep_value : Value) (config : Config) :
    List String :=
  (config.filter (fun p => p.2.get dep_key == some dep_value)).map Prod.fst

/-- Flattens a dependency field value to the list of referenced ids
(`if not isinstance(dep_value, list): dep_value = [dep_value]`); dependency
fields hold an id or a list of ids in valid configurations. -/
def dep_id_list : Value → List String
  | .s v => [v]
  | .l v => v
  | _ => []

/-- `find_item_dependencies(item_id, config, validate)`: walks the storage
config collecting dependent device ids.  Returns `.ok none` where Python
returns `None` (item id absent), `.ok (some deps)` for the collected list,
and `.error _` where Python raises.  The fuel argument bounds the recursion
depth; the recursive call in the source passes `validate` implicitly as its
default `True`. -/
def find_item_dependencies : Nat → String → Config → Bool → Except Err (Option (List String))
  | 0, _, _, _ => .error .outOfFuel
  | fuel + 1, item_id, config, validate =>
    if config.isEmpty then
      .error (.valueError "Invalid config. Must be non-empty OrderedDict")
    else
      match config.lookup item_id with
      | none => .ok none
      | some item_cfg =>
        match _stype_to_order_key item_cfg.type with
        | none => .error (.valueError ("Unknown storage type: " ++ item_cfg.type))
        | some item_order =>
          match _stype_to_deps item_cfg.type with
          | none => .error .keyError
          | some dep_keys =>
            let step_dep : List String → String → String → Except Err (List String) :=
              fun deps dep_key dep => do
                if validate then
                  _validate_dep_type item_id dep_key dep config
                let same_deps := _find_same_dep dep_key (Value.s dep) config
                let sdeps_cfgs := (config.filter (fun p => same_deps.contains p.1)).map Prod.snd
                let sorted_deps ← sort_by_field item_order sdeps_cfgs
                let deps := deps ++ sorted_deps.map Item.id
                match ← find_item_dependencies fuel dep config true with
                | some lower_deps => pure (deps ++ lower_deps)
                | none => pure deps
            let step_key : List String → String → Except Err (List String) :=
              fun deps dep_key =>
                match item_cfg.get dep_key with
                | none => pure deps
                | some v =>
                  let dep_value := dep_id_list v
                  dep_value.foldlM (fun ds dep => step_dep ds dep_key dep)
                    (deps ++ dep_value)
            (dep_keys.foldlM step_key []).map some

/-- `get_config_tree(item, storage_config)`: ordered mapping holding the item
first and each newly discovered dependency after it (insert-if-absent).  The
source first extracts the id-keyed mapping from the raw config; this model
takes the extracted mapping directly. -/
def get_config_tree (fuel : Nat) (item : String) (sconfig : Config) :
    Except Err Config := do
  match sconfig.lookup item with
  | none => .error .keyError
  | some item_cfg =>
  match ← find_item_dependencies fuel item sconfig true with
  | none => .error .typeError
  | some item_deps =>
    item_deps.foldlM
      (fun tree dep => do
        match sconfig.lookup dep with
        | none => .error .keyError
        | some dep_cfg =>
          if tree.any (fun p => p.1 == dep) then pure tree
          else pure (tree ++ [(dep, dep_cfg)]))
      [(item, item_cfg)]

/-- One registry record built by `merge_config_trees_to_list`: the tree's top
item id, its `level` (the tree's entry count) and the top item's config. -/
structure RegEntry where
  key : String
  level : Nat
  config : Item
deriving DecidableEq, Repr

/-- One iteration of the registry-building loop in
`merge_config_trees_to_list`: reads the tree's first key, records its level,
raises `IndexError` on an empty tree, and warn-skips a duplicate top id (the
running maximum level is updated before the duplicate check, as in the
source). -/
def merge_step (acc : List RegEntry × Nat) (tree : Config) :
    Except Err (List RegEntry × Nat) :=
  match tree with
  | [] => .error .indexError
  | (top_item_id, item_cfg) :: _ =>
    let level := tree.length
    let max_level := max acc.2 level
    if acc.1.any (fun e => e.key == top_item_id) then .ok (acc.1, max_level)
    else .ok (acc.1 ++ [⟨top_item_id, level, item_cfg⟩], max_level)

/-- Groups configs by their `type` field preserving insertion order, the
`sreg` dict built inside `sort_level`. -/
def group_insert (sreg : List (String × List Item)) (cfg : Item) :
    List (String × List Item) :=
  match sreg with
  | [] => [(cfg.type, [cfg])]
  | (t, g) :: rest =>
    if t == cfg.type then (t, g ++ [cfg]) :: rest
    else (t, g) :: group_insert rest cfg

/-- The per-type registry of `sort_level`. -/
def group_types (configs : List Item) : List (String × List Item) :=
  configs.foldl group_insert []

/-- String-order relation for `sorted(sreg.keys())`. -/
def str_le (a b : String) : Prop := pystr_le a b = true

instance : DecidableRel str_le := fun a b =>
  decidable_of_iff (pystr_le a b = true) Iff.rfl

/-- Body of the per-type loop in `sort_level`: look up the type's order key
and sort that type's group with it. -/
def sort_one_type (sreg : List (String × List Item)) (t : String) :
    Except Err (List Item) :=
  match _stype_to_order_key t with
  | none => .error (.valueError ("Unknown storage type: " ++ t))
  | some iorder => sort_by_field iorder ((sreg.lookup t).getD [])

/-- `sort_level(configs)`: group by type, iterate types alphabetically, sort
each group by the type's order key, concatenate. -/
def sort_level (configs : List Item) : Except Err (List Item) := do
  let groups ← (((group_types configs).map Prod.fst).insertionSort str_le).mapM
    (sort_one_type (group_types configs))
  pure groups.flatten

/-- `merge_config_trees_to_list(config_trees)`: registry of tree tops with
levels, then levels 0..max in ascending order, each level sorted by
`sort_level`. -/
def merge_config_trees_to_list (config_trees : List Config) :
    Except Err (List Item) := do
  let (reg, max_level) ← config_trees.foldlM merge_step ([], 0)
  let levels ← (List.range (max_level + 1)).mapM (fun lvl =>
    sort_level ((reg.filter (fun e => e.level == lvl)).map RegEntry.config))
  pure levels.flatten

/-- `GPT_GUID_TO_CURTIN_MAP` from `storage_config.py`: GUID ↦ (flag, sgdisk
type code). -/
def GPT_GUID_TO_CURTIN_MAP : List (String × String × String) :=
  [("C12A7328-F81F-11D2-BA4B-00A0C93EC93B", "boot", "EF00"),
   ("21686148-6449-6E6F-744E-656564454649", "bios_grub", "EF02"),
   ("933AC7E1-2EB4-4F13-B844-0E14E2AEF915", "home", "8302"),
   ("0FC63DAF-8483-4772-8E79-3D69D8477DE4", "linux", "8300"),
   ("E6D6D379-F507-44C2-A23C-238F2A3DF928", "lvm", "8e00"),
   ("024DEE41-33E7-11D3-9D69-0008C781F39F", "mbr", ""),
   ("9E1A2D38-C612-4316-AA26-8B49521E5A8B", "prep", "4200"),
   ("A19D880F-05FC-4D3B-A006-743F0F84911E", "raid", "fd00"),
   ("0657FD6D-A4AB-43C4-84E5-0933C84B4F4F", "swap", "8200")]

/-- `FLAG_TO_GUID`: flag ↦ GUID. -/
def FLAG_TO_GUID : List (String × String) :=
  GPT_GUID_TO_CURTIN_MAP.map (fun e => (e.2.1, e.1))

/-- `FLAG_TO_MBR_TYPE`: flag ↦ first two characters of the type code,
upper-cased, with `extended` forced to the fixed code `05`. -/
def FLAG_TO_MBR_TYPE : List (String × String) :=
  GPT_GUID_TO_CURTIN_MAP.map (fun e => (e.2.1, (e.2.2.take 2).toUpper)) ++
    [("extended", "05")]

/-- `ONE_MIB_BYTES = 1 << 20`. -/
def ONE_MIB_BYTES : Nat := 1 <<< 20

/-- `align_up(size, block_size) = (size + block_size - 1) & ~(block_size - 1)`.
For a non-negative Python int `x` and mask `~m` of a non-negative `m`, the
two's-complement identity `x & ~m = x - (x & m)` holds, which gives this
`Nat` form; `align_up_eq_mask` below proves it equal to the literal masked
expression over two's-complement integers. -/
def align_up (size block_size : Nat) : Nat :=
  (size + block_size - 1) - Nat.land (size + block_size - 1) (block_size - 1)

/-- `align_down(size, block_size) = size & ~(block_size - 1)`. -/
def align_down (size block_size : Nat) : Nat :=
  size - Nat.land size (block_size - 1)

/-- Python bitwise NOT on unbounded two's-complement integers: `~a = -(a+1)`. -/
def py_not (a : Int) : Int := -(a + 1)

/-- Python bitwise AND on unbounded two's-complement integers.  A negative
int `Int.negSucc n` has the bit pattern `NOT n`, so the four cases are the
standard AND/AND-NOT/NOR combinations of natural-number bitwise operations. -/
def py_and : Int → Int → Int
  | .ofNat m, .ofNat n => .ofNat (m &&& n)
  | .ofNat m, .negSucc n => .ofNat (Nat.ldiff m n)
  | .negSucc m, .ofNat n => .ofNat (Nat.ldiff n m)
  | .negSucc m, .negSucc n => .negSucc (m ||| n)

/-- `align_up` written exactly as the source's masked expression, over
two's-complement integers. -/
def align_up_mask (size block_size : Int) : Int :=
  py_and (size + block_size - 1) (py_not (block_size - 1))

/-- One row of a computed partition table.  `bootable` is `True` or `None` in
the DOS flavor and `False` (the attrs default) in the GPT flavor, hence
`Option Bool`. -/
structure PartTableEntry where
  number : Nat
  start : Nat
  size : Nat
  type : Option String
  uuid : Option String
  bootable : Option Bool := none
deriving DecidableEq, Repr

/-- One partition action as consumed by the layout engine.  `offset` and
`size` are byte counts (see the header note on `human2bytes`); absent keys
are `none`, and `preserve` defaults to `False` via `action.get('preserve',
False)`. -/
structure PartAction where
  number : Option Nat := none
  offset : Option Nat := none
  size : Nat := 0
  flag : Option String := none
  uuid : Option String := none
  preserve : Bool := false
  wipe : Option String := none
deriving DecidableEq, Repr

/-- `SFDiskPartTable.bytes2sectors` (the `human2bytes` call is modelled as
the identity on byte counts). -/
def bytes2sectors (sector_bytes amount : Nat) : Nat := amount / sector_bytes

/-- State of a `GPTPartTable`. -/
structure GPTPartTable where
  sector_bytes : Nat
  one_mib_sectors : Nat
  entries : List PartTableEntry := []
deriving DecidableEq, Repr

/-- State of a `DOSPartTable`: the base-class fields plus the `_extended`
chain anchor. -/
structure DOSPartTable where
  sector_bytes : Nat
  one_mib_sectors : Nat
  entries : List PartTableEntry := []
  extended : Option PartTableEntry := none
deriving DecidableEq, Repr

/-- `SFDiskPartTable.__init__` for the GPT flavor: rejects a sector size that
does not divide 1 MiB (Python raises on `sector_bytes = 0` too, via
`ZeroDivisionError`; here `ONE_MIB_BYTES % 0 = ONE_MIB_BYTES ≠ 0` lands in
the same error branch). -/
def mkGPTPartTable (sector_bytes : Nat) : Except Err GPTPartTable :=
  if ONE_MIB_BYTES % sector_bytes != 0 then
    .error (.exception "sector_bytes does not divide 1MiB, cannot continue!")
  else
    .ok { sector_bytes, one_mib_sectors := ONE_MIB_BYTES / sector_bytes }

/-- `SFDiskPartTable.__init__` for the DOS flavor. -/
def mkDOSPartTable (sector_bytes : Nat) : Except Err DOSPartTable :=
  if ONE_MIB_BYTES % sector_bytes != 0 then
    .error (.exception "sector_bytes does not divide 1MiB, cannot continue!")
  else
    .ok { sector_bytes, one_mib_sectors := ONE_MIB_BYTES / sector_bytes }

/-- `GPTPartTable.add(action)`: number defaults to the insertion position,
start to the 1 MiB-aligned sector after the previous entry's end (first
aligned sector when the table is empty), type from the flag table. -/
def GPTPartTable.add (t : GPTPartTable) (action : PartAction) :
    GPTPartTable × PartTableEntry :=
  let number := action.number.getD (t.entries.length + 1)
  let start :=
    match action.offset with
    | some off => bytes2sectors t.sector_bytes off
    | none =>
      match t.entries.getLast? with
      | some prev => align_up (prev.start + prev.size) t.one_mib_sectors
      | none => t.one_mib_sectors
  let size := bytes2sectors t.sector_bytes action.size
  let uuid := action.uuid
  let type := action.flag.bind (fun f => FLAG_TO_GUID.lookup f)
  let entry : PartTableEntry :=
    { number, start, size, type, uuid, bootable := some false }
  ({ t with entries := t.entries ++ [entry] }, entry)

/-- `DOSPartTable.add(action)`.  Raises before any table mutation, so an
error leaves the table unchanged (first component of the result).  Logical
partitions are numbered from the chain of entries with number > 4; primary
partitions above number 4 are rejected. -/
def DOSPartTable.add (t : DOSPartTable) (action : PartAction) :
    DOSPartTable × Except Err PartTableEntry :=
  let flag := action.flag
  let start0 := action.offset.map (bytes2sectors t.sector_bytes)
  let finish : Nat → Nat → DOSPartTable × Except Err PartTableEntry :=
    fun number start =>
      let size := bytes2sectors t.sector_bytes action.size
      let type := flag.bind (fun f => FLAG_TO_MBR_TYPE.lookup f)
      let bootable := if flag == some "boot" then some true else none
      let entry : PartTableEntry := { number, start, size, type, uuid := none, bootable }
      let extended := if flag == some "extended" then some entry else t.extended
      ({ t with entries := t.entries ++ [entry], extended }, .ok entry)
  if flag == some "logical" then
    match t.extended with
    | none => (t, .error (.exception "logical partition without extended partition"))
    | some ext =>
      match t.entries.reverse.find? (fun e => e.number > 4) with
      | none =>
        finish 5 (start0.getD
          (align_up (ext.start + t.one_mib_sectors) t.one_mib_sectors))
      | some prev =>
        finish (prev.number + 1) (start0.getD
          (align_up (prev.start + prev.size + t.one_mib_sectors) t.one_mib_sectors))
  else
    let number := action.number.getD (t.entries.length + 1)
    if number > 4 then
      (t, .error (.exception "primary partition cannot have number > 4"))
    else
      let start :=
        match start0 with
        | some s => s
        | none =>
          match (t.entries.filter (fun e => e.number ≤ 4)).getLast? with
          | none => t.one_mib_sectors
          | some prev => align_up (prev.start + prev.size) t.one_mib_sectors
      finish number start

/-- Folds `DOSPartTable.add` over a list of actions, stopping at the first
raise (as the caller's loop in `disk_handler_v2` would). -/
def DOSPartTable.addMany (t : DOSPartTable) : List PartAction → Except Err DOSPartTable
  | [] => .ok t
  | a :: rest =>
    match t.add a with
    | (_, .error e) => .error e
    | (t', .ok _) => t'.addMany rest

/-- Folds `GPTPartTable.add` over a list of actions (GPT `add` never
raises in this model). -/
def GPTPartTable.addMany (t : GPTPartTable) (actions : List PartAction) : GPTPartTable :=
  actions.foldl (fun t a => (t.add a).1) t

/-- `_wipe_for_action(action)`: explicit `wipe` wins, preserved partitions
are not wiped, new extended partitions are not wiped, all other new
partitions get a superblock wipe.  The Python `None` result is `none`. -/
def _wipe_for_action (action : PartAction) : Option String :=
  match action.wipe with
  | some w => some w
  | none =>
    if action.preserve then none
    else if action.flag == some "extended" then none
    else some "superblock"

instance {ε α : Type} [DecidableEq ε] [DecidableEq α] : DecidableEq (Except ε α) := fun
  | .ok a, .ok b =>
    if h : a = b then .isTrue (by rw [h])
    else .isFalse (by intro he; cases he; exact h rfl)
  | .ok _, .error _ => .isFalse (by intro h; cases h)
  | .error _, .ok _ => .isFalse (by intro h; cases h)
  | .error e, .error f =>
    if h : e = f then .isTrue (by rw [h])
    else .isFalse (by intro he; cases he; exact h rfl)

/-! Arithmetic facts about `align_up` for power-of-two block sizes. -/

theorem land_two_pow_sub_one (n k : Nat) : Nat.land n (2 ^ k - 1) = n % 2 ^ k := by
  apply Nat.eq_of_testBit_eq
  intro i
  show Nat.testBit (n &&& (2 ^ k - 1)) i = _
  rw [Nat.testBit_land, Nat.testBit_two_pow_sub_one, Nat.testBit_mod_two_pow,
    Bool.and_comm]

theorem sub_mod_self_eq_div_mul (n m : Nat) : n - n % m = m * (n / m) := by
  have := Nat.div_add_mod n m
  omega

theorem two_pow_mul_div_eq_shift (n k : Nat) :
    2 ^ k * (n / 2 ^ k) = (n >>> k) <<< k := by
  rw [Nat.shiftLeft_eq, Nat.shiftRight_eq_div_pow, Nat.mul_comm]

theorem ldiff_two_pow_sub_one (n k : Nat) :
    Nat.ldiff n (2 ^ k - 1) = n - n % 2 ^ k := by
  rw [sub_mod_self_eq_div_mul, two_pow_mul_div_eq_shift]
  apply Nat.eq_of_testBit_eq
  intro i
  rw [Nat.testBit_ldiff, Nat.testBit_two_pow_sub_one, Nat.testBit_shiftLeft,
    Nat.testBit_shiftRight]
  by_cases h : i < k
  · simp [h, Nat.not_le.mpr h]
  · have hk : k + (i - k) = i := by omega
    simp [h, Nat.le_of_not_lt h, hk]

theorem align_up_eq_div_mul (x k : Nat) :
    align_up x (2 ^ k) = 2 ^ k * ((x + 2 ^ k - 1) / 2 ^ k) := by
  unfold align_up
  rw [land_two_pow_sub_one, sub_mod_self_eq_div_mul]

/-- The engine's `align_up` agrees with the literal Python masked expression
`(size + block_size - 1) & ~(block_size - 1)` over two's-complement
integers, for any power-of-two block size. -/
theorem align_up_mask_eq (x k : Nat) :
    align_up_mask (x : Int) ((2 ^ k : Nat) : Int) = (align_up x (2 ^ k) : Int) := by
  have hb : 0 < 2 ^ k := Nat.pos_pow_of_pos k (by omega)
  have h1 : (((2 ^ k : Nat) : Int) - 1) = ((2 ^ k - 1 : Nat) : Int) := by omega
  have h2 : ((x : Int) + ((2 ^ k : Nat) : Int) - 1) = ((x + 2 ^ k - 1 : Nat) : Int) := by
    omega
  unfold align_up_mask py_not
  rw [h1, h2]
  have h3 : -(((2 ^ k - 1 : Nat) : Int) + 1) = Int.negSucc (2 ^ k - 1) := by
    rw [Int.negSucc_eq]
  rw [h3]
  show Int.ofNat (Nat.ldiff (x + 2 ^ k - 1) (2 ^ k - 1)) = _
  rw [ldiff_two_pow_sub_one]
  unfold align_up
  rw [land_two_pow_sub_one]
  rfl

theorem align_up_dvd (x k : Nat) : 2 ^ k ∣ align_up x (2 ^ k) := by
  rw [align_up_eq_div_mul]
  exact Dvd.intro _ rfl

theorem align_up_ge (x k : Nat) : x ≤ align_up x (2 ^ k) := by
  have hb : 0 < 2 ^ k := Nat.pos_pow_of_pos k (by omega)
  rw [align_up_eq_div_mul]
  have h1 : (x + 2 ^ k - 1) % 2 ^ k < 2 ^ k := Nat.mod_lt _ hb
  have h2 := Nat.div_add_mod (x + 2 ^ k - 1) (2 ^ k)
  omega

theorem align_up_le_of_dvd (x k y : Nat) (hy : 2 ^ k ∣ y) (hxy : x ≤ y) :
    align_up x (2 ^ k) ≤ y := by
  have hb : 0 < 2 ^ k := Nat.pos_pow_of_pos k (by omega)
  rw [align_up_eq_div_mul]
  obtain ⟨c, rfl⟩ := hy
  have h1 : x + 2 ^ k - 1 < (c + 1) * 2 ^ k := by
    have hc : (c + 1) * 2 ^ k = 2 ^ k * c + 2 ^ k := by ring
    omega
  have h2 : (x + 2 ^ k - 1) / 2 ^ k < c + 1 := (Nat.div_lt_iff_lt_mul hb).mpr h1
  exact Nat.mul_le_mul_left _ (by omega)

theorem align_up_of_dvd (x k : Nat) (hx : 2 ^ k ∣ x) : align_up x (2 ^ k) = x :=
  Nat.le_antisymm (align_up_le_of_dvd x k x hx le_rfl) (align_up_ge x k)

theorem align_up_lt (x k : Nat) : align_up x (2 ^ k) < x + 2 ^ k := by
  have hb : 0 < 2 ^ k := Nat.pos_pow_of_pos k (by omega)
  rw [align_up_eq_div_mul]
  have h2 := Nat.div_add_mod (x + 2 ^ k - 1) (2 ^ k)
  omega

/-- Every divisor of `2 ^ 20` is itself a power of two, so the quotient
`2 ^ 20 / sector_bytes` is a power of two. -/
theorem one_mib_div_pow_two (sb : Nat) (h : sb ∣ ONE_MIB_BYTES) :
    ∃ k, k ≤ 20 ∧ ONE_MIB_BYTES / sb = 2 ^ k := by
  have h20 : ONE_MIB_BYTES = 2 ^ 20 := by decide
  rw [h20] at h ⊢
  obtain ⟨j, hj, rfl⟩ := (Nat.dvd_prime_pow Nat.prime_two).mp h
  refine ⟨20 - j, by omega, ?_⟩
  rw [Nat.pow_div hj (by omega)]

/-- C10: for every `sector_bytes` accepted by the `SFDiskPartTable`
constructor (every divisor of 1 MiB), `one_mib_sectors = 2^20 / sector_bytes`
is a power of two, and `align_up` — the masked computation
`(x + b - 1) & ~(b - 1)` — yields the least multiple of `one_mib_sectors`
that is at least `x`, for every `x`. -/
theorem c10_align_up_least_multiple (sb : Nat) (h : sb ∣ ONE_MIB_BYTES) :
    (∃ k, ONE_MIB_BYTES / sb = 2 ^ k) ∧
    ∀ x : Nat,
      align_up_mask (x : Int) ((ONE_MIB_BYTES / sb : Nat) : Int) =
        (align_up x (ONE_MIB_BYTES / sb) : Int) ∧
      (ONE_MIB_BYTES / sb) ∣ align_up x (ONE_MIB_BYTES / sb) ∧
      x ≤ align_up x (ONE_MIB_BYTES / sb) ∧
      ∀ y : Nat, (ONE_MIB_BYTES / sb) ∣ y → x ≤ y →
        align_up x (ONE_MIB_BYTES / sb) ≤ y := by
  obtain ⟨k, -, hk⟩ := one_mib_div_pow_two sb h
  rw [hk]
  exact ⟨⟨k, rfl⟩, fun x => ⟨align_up_mask_eq x k, align_up_dvd x k,
    align_up_ge x k, fun y => align_up_le_of_dvd x k y⟩⟩

/-- Witness for C10 at `sector_bytes = 512`. -/
theorem c10_align_up_least_multiple_witness :
    (512 : Nat) ∣ ONE_MIB_BYTES ∧
    ((∃ k, ONE_MIB_BYTES / 512 = 2 ^ k) ∧
     ∀ x : Nat,
       align_up_mask (x : Int) ((ONE_MIB_BYTES / 512 : Nat) : Int) =
         (align_up x (ONE_MIB_BYTES / 512) : Int) ∧
       (ONE_MIB_BYTES / 512) ∣ align_up x (ONE_MIB_BYTES / 512) ∧
       x ≤ align_up x (ONE_MIB_BYTES / 512) ∧
       ∀ y : Nat, (ONE_MIB_BYTES / 512) ∣ y → x ≤ y →
         align_up x (ONE_MIB_BYTES / 512) ≤ y) :=
  ⟨⟨2048, by decide⟩, c10_align_up_least_multiple 512 ⟨2048, by decide⟩⟩

/-- C5 counterexample: an action carrying both the `extended` flag and an
explicit `wipe` field is wiped as requested — the explicit `wipe` wins, so
the wipe mode is not `none` for every extended action. -/
theorem c5_extended_with_explicit_wipe :
    _wipe_for_action { flag := some "extended", wipe := some "superblock" } =
      some "superblock" := by
  rfl

/-- C5 (amended): in the absence of an explicit `wipe` field on the action,
the wipe mode is `none` for an extended action, `none` for a preserved
action, and `superblock` for a non-preserved, non-extended action. -/
theorem c5_wipe_for_action_defaults (a : PartAction) (hw : a.wipe = none) :
    (a.flag = some "extended" → _wipe_for_action a = none) ∧
    (a.preserve = true → _wipe_for_action a = none) ∧
    (a.preserve = false → a.flag ≠ some "extended" →
      _wipe_for_action a = some "superblock") := by
  unfold _wipe_for_action
  rw [hw]
  refine ⟨fun hf => ?_, fun hp => ?_, fun hp hf => ?_⟩
  · cases h : a.preserve <;> simp [h, hf]
  · simp [hp]
  · have hb : (a.flag == some "extended") = false := by simp [hf]
    simp [hp, hb]

/-- Witness for C5 (amended) at a concrete non-preserved extended action. -/
theorem c5_wipe_for_action_defaults_witness :
    (PartAction.wipe { flag := some "extended" } = none) ∧
    ((PartAction.flag { flag := some "extended" } = some "extended" →
      _wipe_for_action { flag := some "extended" } = none) ∧
     (PartAction.preserve { flag := some "extended" } = true →
      _wipe_for_action { flag := some "extended" } = none) ∧
     (PartAction.preserve { flag := some "extended" } = false →
      PartAction.flag { flag := some "extended" } ≠ some "extended" →
      _wipe_for_action { flag := some "extended" } = some "superblock")) :=
  ⟨rfl, c5_wipe_for_action_defaults { flag := some "extended" } rfl⟩

/-! Concrete example configuration used by several claims: GPT disk `sda`
with two partitions, as in the spec's example scenario. -/

def sda_disk : Item :=
  { id := "sda", type := "disk", fields := [("ptable", .s "gpt")] }

def sda1_part : Item :=
  { id := "sda1", type := "partition",
    fields := [("device", .s "sda"), ("number", .n 1), ("size", .n 1073741824)] }

def sda2_part : Item :=
  { id := "sda2", type := "partition",
    fields := [("device", .s "sda"), ("number", .n 2), ("size", .n 2147483648)] }

def example_config : Config :=
  [("sda", sda_disk), ("sda1", sda1_part), ("sda2", sda2_part)]

/-- C6 counterexample: on a non-empty configuration, asking for the
dependencies of an absent id does not fail at all — the function returns
Python `None` (modelled `.ok none`), it raises no `ItemNotFound` error. -/
theorem c6_absent_id_returns_none_not_error :
    find_item_dependencies 5 "sdb" example_config true = .ok none := by
  rfl

/-- C6 (amended): for every non-empty configuration and id absent from it,
`find_item_dependencies` returns `None` (no error is raised). -/
theorem c6_find_item_dependencies_absent (config : Config) (item_id : String)
    (validate : Bool) (fuel : Nat) (hne : config ≠ [])
    (hl : Config.lookup config item_id = none) :
    find_item_dependencies (fuel + 1) item_id config validate = .ok none := by
  cases config with
  | nil => exact absurd rfl hne
  | cons p rest =>
    simp only [find_item_dependencies, List.isEmpty_cons, Bool.false_eq_true,
      if_false]
    rw [hl]

/-- Witness for C6 (amended) on the example configuration. -/
theorem c6_find_item_dependencies_absent_witness :
    example_config ≠ [] ∧ Config.lookup example_config "sdb" = none ∧
    find_item_dependencies 5 "sdb" example_config true = .ok none :=
  ⟨by decide, by decide, c6_find_item_dependencies_absent example_config "sdb"
    true 4 (by decide) (by decide)⟩

/-- Adding a logical partition with no extended partition recorded fails and
leaves the table unchanged. -/
theorem dos_add_logical_no_extended (t : DOSPartTable) (a : PartAction)
    (hflag : a.flag = some "logical") (hext : t.extended = none) :
    t.add a = (t, .error (.exception "logical partition without extended partition")) := by
  unfold DOSPartTable.add
  rw [hflag, hext]
  rfl

/-- A successful `DOSPartTable.add` whose action is not flagged `extended`
keeps the `_extended` anchor unchanged. -/
theorem dos_add_preserves_extended (t t' : DOSPartTable) (a : PartAction)
    (e : PartTableEntry) (hflag : a.flag ≠ some "extended")
    (h : t.add a = (t', .ok e)) : t'.extended = t.extended := by
  have hbe : (a.flag == some "extended") = false := by simp [hflag]
  unfold DOSPartTable.add at h
  simp only [hbe] at h
  split at h
  · split at h
    · exact absurd (Prod.ext_iff.mp h).2 (by simp)
    · split at h
      all_goals
        injection h with h1 h2
        rw [← h1]
        simp
  · split at h
    · exact absurd (Prod.ext_iff.mp h).2 (by simp)
    · injection h with h1 h2
      rw [← h1]
      simp

/-- A successful sequence of adds none of which is flagged `extended` keeps
the `_extended` anchor unchanged. -/
theorem dos_addMany_preserves_extended (actions : List PartAction) :
    ∀ (t t' : DOSPartTable), (∀ a ∈ actions, a.flag ≠ some "extended") →
    t.addMany actions = .ok t' → t'.extended = t.extended := by
  induction actions with
  | nil =>
    intro t t' _ h
    simp only [DOSPartTable.addMany] at h
    cases h
    rfl
  | cons a rest ih =>
    intro t t' hflags h
    simp only [DOSPartTable.addMany] at h
    split at h
    · cases h
    · rename_i t1 e heq
      have h1 := ih t1 t' (fun b hb => hflags b (List.mem_cons_of_mem a hb)) h
      have h2 := dos_add_preserves_extended t t1 a e
        (hflags a (List.mem_cons_self a rest)) heq
      rw [h1, h2]

/-- C7: on a DOS table built by any sequence of adds none of which carried
the `extended` flag, adding a `logical`-flagged action fails with the
missing-extended-partition error, and the table is unchanged (no entry is
appended). -/
theorem c7_logical_requires_extended (sb : Nat) (t0 t : DOSPartTable)
    (actions : List PartAction) (la : PartAction)
    (hmk : mkDOSPartTable sb = .ok t0)
    (hflags : ∀ a ∈ actions, a.flag ≠ some "extended")
    (hrun : t0.addMany actions = .ok t)
    (hla : la.flag = some "logical") :
    t.add la = (t, .error (.exception "logical partition without extended partition")) := by
  have h0 : t0.extended = none := by
    unfold mkDOSPartTable at hmk
    split at hmk
    · cases hmk
    · cases hmk
      rfl
  have hext : t.extended = none := by
    rw [dos_addMany_preserves_extended actions t0 t hflags hrun, h0]
  exact dos_add_logical_no_extended t la hla hext

/-- Witness for C7: an empty DOS table at 512-byte sectors rejects a logical
partition. -/
theorem c7_logical_requires_extended_witness :
    mkDOSPartTable 512 = .ok ⟨512, 2048, [], none⟩ ∧
    DOSPartTable.addMany ⟨512, 2048, [], none⟩ [] = .ok ⟨512, 2048, [], none⟩ ∧
    DOSPartTable.add ⟨512, 2048, [], none⟩ { flag := some "logical", size := 1048576 } =
      (⟨512, 2048, [], none⟩,
       .error (.exception "logical partition without extended partition")) :=
  ⟨by decide, by decide,
   c7_logical_requires_extended 512 ⟨512, 2048, [], none⟩ ⟨512, 2048, [], none⟩
     [] { flag := some "logical", size := 1048576 } (by decide)
     (by intro a ha; cases ha) (by decide) rfl⟩

theorem align_up_add_block (x k : Nat) :
    align_up (x + 2 ^ k) (2 ^ k) = align_up x (2 ^ k) + 2 ^ k := by
  have hb : 0 < 2 ^ k := Nat.pos_pow_of_pos k (by omega)
  rw [align_up_eq_div_mul, align_up_eq_div_mul]
  have h1 : x + 2 ^ k + 2 ^ k - 1 = (x + 2 ^ k - 1) + 2 ^ k := by omega
  rw [h1, Nat.add_div_right _ hb]
  ring

/-- Inversion of the DOS constructor: success means the sector size divides
1 MiB and the table starts empty. -/
theorem mkDOSPartTable_ok (sb : Nat) (t0 : DOSPartTable)
    (h : mkDOSPartTable sb = .ok t0) :
    ONE_MIB_BYTES % sb = 0 ∧ t0 = ⟨sb, ONE_MIB_BYTES / sb, [], none⟩ := by
  unfold mkDOSPartTable at h
  split at h
  · cases h
  · rename_i hcond
    cases h
    exact ⟨by simpa using hcond, rfl⟩

/-- C2: on a DOS table, adding six actions flagged `primary`, `primary`,
`primary`, `extended`, `logical`, `logical` (no explicit numbers or
offsets, any sizes) yields entries numbered 1..6, with the first logical
entry starting exactly one mebibyte after the extended entry's start and
the second logical entry starting one mebibyte after entry 5's end, rounded
up to 1 MiB alignment. -/
theorem c2_dos_six_partitions (sb : Nat) (t0 : DOSPartTable)
    (s1 s2 s3 s4 s5 s6 : Nat) (hmk : mkDOSPartTable sb = .ok t0) :
    ∃ (t : DOSPartTable) (e1 e2 e3 e4 e5 e6 : PartTableEntry),
      t0.addMany
        [{ flag := some "primary", size := s1 }, { flag := some "primary", size := s2 },
         { flag := some "primary", size := s3 }, { flag := some "extended", size := s4 },
         { flag := some "logical", size := s5 }, { flag := some "logical", size := s6 }] =
        .ok t ∧
      t.entries = [e1, e2, e3, e4, e5, e6] ∧
      [e1.number, e2.number, e3.number, e4.number, e5.number, e6.number] =
        [1, 2, 3, 4, 5, 6] ∧
      e5.start = e4.start + t0.one_mib_sectors ∧
      e6.start = align_up (e5.start + e5.size + t0.one_mib_sectors) t0.one_mib_sectors ∧
      e6.start = align_up (e5.start + e5.size) t0.one_mib_sectors + t0.one_mib_sectors := by
  obtain ⟨hmod, rfl⟩ := mkDOSPartTable_ok sb t0 hmk
  obtain ⟨k, -, hk⟩ := one_mib_div_pow_two sb (Nat.dvd_of_mod_eq_zero hmod)
  rw [hk]
  refine ⟨_, ⟨1, 2 ^ k, bytes2sectors sb s1, none, none, none⟩,
    ⟨2, align_up (2 ^ k + bytes2sectors sb s1) (2 ^ k), bytes2sectors sb s2, none, none, none⟩,
    ⟨3, align_up (align_up (2 ^ k + bytes2sectors sb s1) (2 ^ k) + bytes2sectors sb s2) (2 ^ k),
      bytes2sectors sb s3, none, none, none⟩,
    ⟨4, align_up (align_up (align_up (2 ^ k + bytes2sectors sb s1) (2 ^ k) +
        bytes2sectors sb s2) (2 ^ k) + bytes2sectors sb s3) (2 ^ k),
      bytes2sectors sb s4, some "05", none, none⟩,
    ⟨5, align_up (align_up (align_up (align_up (2 ^ k + bytes2sectors sb s1) (2 ^ k) +
        bytes2sectors sb s2) (2 ^ k) + bytes2sectors sb s3) (2 ^ k) + 2 ^ k) (2 ^ k),
      bytes2sectors sb s5, none, none, none⟩,
    ⟨6, align_up (align_up (align_up (align_up (align_up (2 ^ k + bytes2sectors sb s1) (2 ^ k) +
        bytes2sectors sb s2) (2 ^ k) + bytes2sectors sb s3) (2 ^ k) + 2 ^ k) (2 ^ k) +
        bytes2sectors sb s5 + 2 ^ k) (2 ^ k),
      bytes2sectors sb s6, none, none, none⟩,
    rfl, rfl, rfl, ?_, rfl, ?_⟩
  · show align_up (_ + 2 ^ k) (2 ^ k) = _ + 2 ^ k
    exact align_up_of_dvd _ k (dvd_add (align_up_dvd _ k) dvd_rfl)
  · show align_up (_ + bytes2sectors sb s5 + 2 ^ k) (2 ^ k) = _
    rw [align_up_add_block]

/-- Witness for C2 at 512-byte sectors with six 1 MiB partitions. -/
theorem c2_dos_six_partitions_witness :
    mkDOSPartTable 512 = .ok ⟨512, 2048, [], none⟩ ∧
    (∃ (t : DOSPartTable) (e1 e2 e3 e4 e5 e6 : PartTableEntry),
      DOSPartTable.addMany ⟨512, 2048, [], none⟩
        [{ flag := some "primary", size := 1048576 }, { flag := some "primary", size := 1048576 },
         { flag := some "primary", size := 1048576 }, { flag := some "extended", size := 1048576 },
         { flag := some "logical", size := 1048576 }, { flag := some "logical", size := 1048576 }] =
        .ok t ∧
      t.entries = [e1, e2, e3, e4, e5, e6] ∧
      [e1.number, e2.number, e3.number, e4.number, e5.number, e6.number] =
        [1, 2, 3, 4, 5, 6] ∧
      e5.start = e4.start + 2048 ∧
      e6.start = align_up (e5.start + e5.size + 2048) 2048 ∧
      e6.start = align_up (e5.start + e5.size) 2048 + 2048) :=
  ⟨by decide, c2_dos_six_partitions 512 ⟨512, 2048, [], none⟩
    1048576 1048576 1048576 1048576 1048576 1048576 (by decide)⟩

/-- Inversion of the GPT constructor. -/
theorem mkGPTPartTable_ok (sb : Nat) (t0 : GPTPartTable)
    (h : mkGPTPartTable sb = .ok t0) :
    ONE_MIB_BYTES % sb = 0 ∧ t0 = ⟨sb, ONE_MIB_BYTES / sb, []⟩ := by
  unfold mkGPTPartTable at h
  split at h
  · cases h
  · rename_i hcond
    cases h
    exact ⟨by simpa using hcond, rfl⟩

/-- C3 counterexample: two offset-free adds whose action sizes convert to
zero sectors produce two entries with the same `start`, so start values are
not strictly increasing for every offset-free sequence. -/
theorem c3_zero_size_equal_starts :
    ((GPTPartTable.addMany ⟨512, 2048, []⟩ [{ size := 0 }, { size := 0 }]).entries.map
      PartTableEntry.start) = [2048, 2048] ∧
    ¬ List.Chain' (fun e f => e.start < f.start)
      (GPTPartTable.addMany ⟨512, 2048, []⟩ [{ size := 0 }, { size := 0 }]).entries := by
  have he : (GPTPartTable.addMany ⟨512, 2048, []⟩ [{ size := 0 }, { size := 0 }]).entries =
      [⟨1, 2048, 0, none, none, some false⟩, ⟨2, 2048, 0, none, none, some false⟩] := by
    decide
  refine ⟨by rw [he]; rfl, fun h => ?_⟩
  rw [he] at h
  exact absurd (List.chain'_cons.mp h).1 (by decide)

/-- The start chosen by an offset-free GPT `add` is 1 MiB-aligned, at least
the previous entry's end, and strictly beyond the previous entry's start
when the previous entry has nonzero size; this invariant carries those
facts through a whole sequence of adds. -/
theorem gpt_addMany_inv (k sb : Nat) (hsb : 0 < sb) (actions : List PartAction) :
    ∀ t : GPTPartTable, t.sector_bytes = sb → t.one_mib_sectors = 2 ^ k →
    (∀ a ∈ actions, a.offset = none ∧ sb ≤ a.size) →
    List.Chain' (fun e f => e.start < f.start ∧ e.start + e.size ≤ f.start) t.entries →
    (∀ e ∈ t.entries, 2 ^ k ∣ e.start) →
    (∀ e ∈ t.entries, 1 ≤ e.size) →
    List.Chain' (fun e f => e.start < f.start ∧ e.start + e.size ≤ f.start)
      (t.addMany actions).entries ∧
    (∀ e ∈ (t.addMany actions).entries, 2 ^ k ∣ e.start) ∧
    (∀ e ∈ (t.addMany actions).entries, 1 ≤ e.size) := by
  induction actions with
  | nil =>
    intro t _ _ _ hchain hdvd hsz
    exact ⟨hchain, hdvd, hsz⟩
  | cons a rest ih =>
    intro t htsb htm hacts hchain hdvd hsz
    have ha := hacts a (List.mem_cons_self a rest)
    have hrest : ∀ b ∈ rest, b.offset = none ∧ sb ≤ b.size :=
      fun b hb => hacts b (List.mem_cons_of_mem a hb)
    have hstep : t.addMany (a :: rest) = ((t.add a).1).addMany rest := rfl
    rw [hstep]
    have hadd : (t.add a).1 = { t with entries := t.entries ++
        [⟨a.number.getD (t.entries.length + 1),
          match t.entries.getLast? with
          | some prev => align_up (prev.start + prev.size) t.one_mib_sectors
          | none => t.one_mib_sectors,
          bytes2sectors t.sector_bytes a.size,
          a.flag.bind (fun f => FLAG_TO_GUID.lookup f), a.uuid, some false⟩] } := by
      unfold GPTPartTable.add
      rw [ha.1]
    have hsznew : 1 ≤ bytes2sectors t.sector_bytes a.size := by
      rw [htsb]
      exact (Nat.one_le_div_iff hsb).mpr ha.2
    rw [hadd]
    cases hl : t.entries.getLast? with
    | none =>
      have hnil : t.entries = [] := List.getLast?_eq_none_iff.mp hl
      refine ih _ htsb htm hrest ?_ ?_ ?_
      · simp [hnil]
      · intro e he
        simp only [hnil, List.nil_append, List.mem_singleton] at he
        rw [he, htm]
      · intro e he
        simp only [hnil, List.nil_append, List.mem_singleton] at he
        rw [he]
        exact hsznew
    | some prev =>
      have hpmem : prev ∈ t.entries := by
        obtain ⟨hne, hpe⟩ := List.mem_getLast?_eq_getLast (Option.mem_def.mpr hl)
        rw [hpe]
        exact List.getLast_mem hne
      have hpdvd := hdvd prev hpmem
      have hpsz := hsz prev hpmem
      have hstart_ge : prev.start + prev.size ≤
          align_up (prev.start + prev.size) (2 ^ k) := align_up_ge _ k
      refine ih _ htsb htm hrest ?_ ?_ ?_
      · rw [List.chain'_append]
        refine ⟨hchain, List.chain'_singleton _, fun x hx y hy => ?_⟩
        rw [hl] at hx
        have hx2 : prev = x := Option.some_inj.mp (Option.mem_def.mp hx)
        have hy2 := Option.some_inj.mp (Option.mem_def.mp hy)
        rw [← hx2, ← hy2, htm]
        constructor
        · show prev.start < align_up (prev.start + prev.size) (2 ^ k)
          omega
        · show prev.start + prev.size ≤ align_up (prev.start + prev.size) (2 ^ k)
          exact hstart_ge
      · intro e he
        rcases List.mem_append.mp he with h1 | h1
        · exact hdvd e h1
        · rw [List.mem_singleton.mp h1, htm]
          exact align_up_dvd _ k
      · intro e he
        rcases List.mem_append.mp he with h1 | h1
        · exact hsz e h1
        · rw [List.mem_singleton.mp h1]
          exact hsznew

/-- C3 (amended): on a GPT table, any sequence of offset-free adds whose
action sizes are at least one sector produces entries with strictly
increasing, 1 MiB-aligned starts and no overlap (each entry's end is at
most the next entry's start).  Without the size lower bound the starts are
still aligned and non-overlapping but need not increase strictly. -/
theorem c3_gpt_sequential_alignment (sb : Nat) (t0 : GPTPartTable)
    (actions : List PartAction) (hmk : mkGPTPartTable sb = .ok t0)
    (hoff : ∀ a ∈ actions, a.offset = none)
    (hsz : ∀ a ∈ actions, sb ≤ a.size) :
    List.Chain' (fun e f => e.start < f.start ∧ e.start + e.size ≤ f.start)
      (t0.addMany actions).entries ∧
    ∀ e ∈ (t0.addMany actions).entries, t0.one_mib_sectors ∣ e.start := by
  obtain ⟨hmod, rfl⟩ := mkGPTPartTable_ok sb t0 hmk
  obtain ⟨k, -, hk⟩ := one_mib_div_pow_two sb (Nat.dvd_of_mod_eq_zero hmod)
  have hsb : 0 < sb := by
    rcases Nat.eq_zero_or_pos sb with h0 | h0
    · rw [h0, Nat.mod_zero] at hmod
      exact absurd hmod (by decide)
    · exact h0
  obtain ⟨h1, h2, -⟩ := gpt_addMany_inv k sb hsb actions ⟨sb, ONE_MIB_BYTES / sb, []⟩
    rfl hk (fun a ha => ⟨hoff a ha, hsz a ha⟩) trivial (by simp) (by simp)
  refine ⟨h1, fun e he => ?_⟩
  show ONE_MIB_BYTES / sb ∣ e.start
  rw [hk]
  exact h2 e he

/-- Witness for C3 (amended): two offset-free adds of 1 MiB and 2 MiB at
512-byte sectors. -/
theorem c3_gpt_sequential_alignment_witness :
    mkGPTPartTable 512 = .ok ⟨512, 2048, []⟩ ∧
    (List.Chain' (fun e f => e.start < f.start ∧ e.start + e.size ≤ f.start)
      (GPTPartTable.addMany ⟨512, 2048, []⟩
        [{ size := 1048576 }, { size := 2097152 }]).entries ∧
     ∀ e ∈ (GPTPartTable.addMany ⟨512, 2048, []⟩
        [{ size := 1048576 }, { size := 2097152 }]).entries,
       (2048 : Nat) ∣ e.start) :=
  ⟨by decide, c3_gpt_sequential_alignment 512 ⟨512, 2048, []⟩
    [{ size := 1048576 }, { size := 2097152 }] (by decide)
    (by decide) (by decide)⟩

theorem list_le_total : ∀ (a b : List Nat), list_le a b = true ∨ list_le b a = true
  | [], _ => Or.inl rfl
  | _ :: _, [] => Or.inr rfl
  | x :: as, y :: bs => by
    simp only [list_le]
    rcases Nat.lt_trichotomy x y with h | h | h
    · left
      simp [h]
    · subst h
      rcases list_le_total as bs with ht | ht
      · left
        rw [if_neg (by omega), if_neg (by omega)]
        exact ht
      · right
        rw [if_neg (by omega), if_neg (by omega)]
        exact ht
    · right
      simp [h]

theorem list_le_trans : ∀ (a b c : List Nat), list_le a b = true →
    list_le b c = true → list_le a c = true
  | [], _, _, _, _ => rfl
  | _ :: _, [], _, h1, _ => by simp [list_le] at h1
  | _ :: _, _ :: _, [], _, h2 => by simp [list_le] at h2
  | x :: as, y :: bs, z :: cs, h1, h2 => by
    simp only [list_le] at h1 h2 ⊢
    rcases Nat.lt_trichotomy x y with hxy | hxy | hxy
    · rcases Nat.lt_trichotomy y z with hyz | hyz | hyz
      · simp [Nat.lt_trans hxy hyz]
      · subst hyz
        simp [hxy]
      · rw [if_neg (by omega), if_pos hyz] at h2
        cases h2
    · subst hxy
      rw [if_neg (by omega), if_neg (by omega)] at h1
      rcases Nat.lt_trichotomy x z with hxz | hxz | hxz
      · simp [hxz]
      · subst hxz
        rw [if_neg (by omega), if_neg (by omega)] at h2
        rw [if_neg (by omega), if_neg (by omega)]
        exact list_le_trans as bs cs h1 h2
      · rw [if_neg (by omega), if_pos hxz] at h2
        cases h2
    · rw [if_neg (by omega), if_pos hxy] at h1
      cases h1

theorem vle_total (a b : Value) : vle a b = true ∨ vle b a = true := by
  cases a <;> cases b <;> simp [vle, pystr_le] <;>
    first
      | exact list_le_total _ _
      | exact le_total _ _

theorem vle_trans (a b c : Value) (h1 : vle a b = true) (h2 : vle b c = true) :
    vle a c = true := by
  cases a <;> cases b <;> cases c <;> simp [vle, pystr_le] at h1 h2 ⊢ <;>
    first
      | exact list_le_trans _ _ _ h1 h2
      | exact le_trans h1 h2

theorem vleo_total (a b : Option Value) : vleo a b = true ∨ vleo b a = true := by
  cases a <;> cases b <;> simp [vleo]
  exact vle_total _ _

theorem vleo_trans (a b c : Option Value) (h1 : vleo a b = true)
    (h2 : vleo b c = true) : vleo a c = true := by
  cases a <;> cases b <;> cases c <;> simp [vleo] at h1 h2 ⊢
  exact vle_trans _ _ _ h1 h2

instance (field : String) : IsTotal Item (field_le field) :=
  ⟨fun a b => by
    unfold field_le
    rcases vleo_total (a.get field) (b.get field) with h | h
    · exact Or.inl h
    · exact Or.inr h⟩

instance (field : String) : IsTrans Item (field_le field) :=
  ⟨fun _ _ _ h1 h2 => vleo_trans _ _ _ h1 h2⟩

/-- Modelled from the spec's words for comparison with the source: the same
dependency walk as `find_item_dependencies`, except that the sibling sort
key is the order key of the *referenced target* item's type ("sort them by
the target type's order key"), not the order key of the item being
resolved. -/
def find_item_dependencies_spec_target_order :
    Nat → String → Config → Bool → Except Err (Option (List String))
  | 0, _, _, _ => .error .outOfFuel
  | fuel + 1, item_id, config, validate =>
    if config.isEmpty then
      .error (.valueError "Invalid config. Must be non-empty OrderedDict")
    else
      match config.lookup item_id with
      | none => .ok none
      | some item_cfg =>
        match _stype_to_order_key item_cfg.type with
        | none => .error (.valueError ("Unknown storage type: " ++ item_cfg.type))
        | some _ =>
          match _stype_to_deps item_cfg.type with
          | none => .error .keyError
          | some dep_keys =>
            let step_dep : List String → String → String → Except Err (List String) :=
              fun deps dep_key dep => do
                if validate then
                  _validate_dep_type item_id dep_key dep config
                let target_order ←
                  match config.lookup dep with
                  | none => .error .keyError
                  | some dep_cfg =>
                    match _stype_to_order_key dep_cfg.type with
                    | none => .error (.valueError ("Unknown storage type: " ++ dep_cfg.type))
                    | some o => pure o
                let same_deps := _find_same_dep dep_key (Value.s dep) config
                let sdeps_cfgs := (config.filter (fun p => same_deps.contains p.1)).map Prod.snd
                let sorted_deps ← sort_by_field target_order sdeps_cfgs
                let deps := deps ++ sorted_deps.map Item.id
                match ← find_item_dependencies_spec_target_order fuel dep config true with
                | some lower_deps => pure (deps ++ lower_deps)
                | none => pure deps
            let step_key : List String → String → Except Err (List String) :=
              fun deps dep_key =>
                match item_cfg.get dep_key with
                | none => pure deps
                | some v =>
                  let dep_value := dep_id_list v
                  dep_value.foldlM (fun ds dep => step_dep ds dep_key dep)
                    (deps ++ dep_value)
            (dep_keys.foldlM step_key []).map some

/-! Configuration refuting C4: two partitions on one disk whose `number`
order and `id` order disagree.  Partition `a` has number 2, partition `b`
has number 1. -/

def c4_disk : Item := { id := "d", type := "disk" }

def c4_part_a : Item :=
  { id := "a", type := "partition", fields := [("device", .s "d"), ("number", .n 2)] }

def c4_part_b : Item :=
  { id := "b", type := "partition", fields := [("device", .s "d"), ("number", .n 1)] }

def c4_config : Config := [("d", c4_disk), ("a", c4_part_a), ("b", c4_part_b)]

/-- C4 counterexample: resolving partition `a`, the code emits the siblings
sorted by the *resolved item's* type order key (`partition.number`, giving
`b` before `a`), not by the referenced target's type order key (`disk.id`
would give `a` before `b` as the spec-variant shows). -/
theorem c4_siblings_sorted_by_source_type :
    find_item_dependencies 5 "a" c4_config true = .ok (some ["d", "b", "a"]) ∧
    find_item_dependencies_spec_target_order 5 "a" c4_config true =
      .ok (some ["d", "a", "b"]) := by
  constructor <;> decide

/-- C4 (amended): for each dependency reference, the sibling block emitted
by `find_item_dependencies` (via `sort_by_field` on the filtered
configuration) contains exactly the items whose `dep_key` field equals the
referenced value — all sharing siblings, not only the item being resolved —
and is sorted by the order key of the item being *resolved* (the source
item's type), not by the target type's order key. -/
theorem c4_sibling_block_exact_and_sorted (config : Config)
    (dep_key dep item_order : String) (out : List Item)
    (hnd : (config.map Prod.fst).Nodup)
    (h : sort_by_field item_order
      ((config.filter
        (fun p => (_find_same_dep dep_key (Value.s dep) config).contains p.1)).map
        Prod.snd) = .ok out) :
    out.Perm ((config.filter
      (fun p => p.2.get dep_key == some (Value.s dep))).map Prod.snd) ∧
    List.Sorted (field_le item_order) out := by
  have hfilter : config.filter
      (fun p => (_find_same_dep dep_key (Value.s dep) config).contains p.1) =
      config.filter (fun p => p.2.get dep_key == some (Value.s dep)) := by
    apply List.filter_congr
    intro p hp
    unfold _find_same_dep
    cases hq : (p.2.get dep_key == some (Value.s dep)) with
    | true =>
      have hmem : p.1 ∈ (config.filter
          (fun q => q.2.get dep_key == some (Value.s dep))).map Prod.fst :=
        List.mem_map.mpr ⟨p, List.mem_filter.mpr ⟨hp, hq⟩, rfl⟩
      exact List.elem_iff.mpr hmem
    | false =>
      refine Bool.eq_false_iff.mpr (fun hc => ?_)
      have hmem : p.1 ∈ (config.filter
          (fun q => q.2.get dep_key == some (Value.s dep))).map Prod.fst :=
        List.elem_iff.mp hc
      obtain ⟨q, hqf, hqe⟩ := List.mem_map.mp hmem
      obtain ⟨hqc, hqq⟩ := List.mem_filter.mp hqf
      have hqp : q = p := List.inj_on_of_nodup_map hnd hqc hp hqe
      rw [hqp] at hqq
      rw [hqq] at hq
      cases hq
  rw [hfilter] at h
  unfold sort_by_field at h
  split at h
  · cases h
    exact ⟨List.perm_insertionSort _ _, List.sorted_insertionSort _ _⟩
  · cases h

/-- Witness for C4 (amended) on the counterexample configuration: the
sibling block for `device = d` is `[b, a]`, sorted by partition number. -/
theorem c4_sibling_block_exact_and_sorted_witness :
    (c4_config.map Prod.fst).Nodup ∧
    sort_by_field "number" ((c4_config.filter
      (fun p => (_find_same_dep "device" (Value.s "d") c4_config).contains p.1)).map
      Prod.snd) = .ok [c4_part_b, c4_part_a] ∧
    (List.Perm [c4_part_b, c4_part_a] ((c4_config.filter
      (fun p => p.2.get "device" == some (Value.s "d"))).map Prod.snd) ∧
     List.Sorted (field_le "number") [c4_part_b, c4_part_a]) :=
  ⟨by decide, by decide,
   c4_sibling_block_exact_and_sorted c4_config "device" "d" "number"
     [c4_part_b, c4_part_a] (by decide) (by decide)⟩

/-- C8 counterexample: on the example configuration (disk `sda`, partitions
`sda1` and `sda2` on it), the merge registry records level 1 for `sda` and
level 3 for each partition — the item counts of their dependency trees
(each partition's tree holds the partition, the disk, and the sibling
partition) — not levels 0 and 1. -/
theorem c8_recorded_levels_one_and_three :
    ([[("sda", sda_disk)],
      [("sda1", sda1_part), ("sda", sda_disk), ("sda2", sda2_part)],
      [("sda2", sda2_part), ("sda", sda_disk), ("sda1", sda1_part)]] :
      List Config).foldlM merge_step ([], 0) =
      .ok ([⟨"sda", 1, sda_disk⟩, ⟨"sda1", 3, sda1_part⟩, ⟨"sda2", 3, sda2_part⟩], 3) := by
  decide

/-- C8 (amended): resolving a tree per item of the example configuration
and merging yields the order `[sda, sda1, sda2]` (`sda1` before `sda2` by
their `number` order key), with tree sizes — the recorded levels — 1 for
`sda` and 3 for `sda1` and `sda2`. -/
theorem c8_example_scenario_order :
    get_config_tree 9 "sda" example_config = .ok [("sda", sda_disk)] ∧
    get_config_tree 9 "sda1" example_config =
      .ok [("sda1", sda1_part), ("sda", sda_disk), ("sda2", sda2_part)] ∧
    get_config_tree 9 "sda2" example_config =
      .ok [("sda2", sda2_part), ("sda", sda_disk), ("sda1", sda1_part)] ∧
    merge_config_trees_to_list
      [[("sda", sda_disk)],
       [("sda1", sda1_part), ("sda", sda_disk), ("sda2", sda2_part)],
       [("sda2", sda2_part), ("sda", sda_disk), ("sda1", sda1_part)]] =
      .ok [sda_disk, sda1_part, sda2_part] := by
  refine ⟨by decide, by decide, by decide, by decide⟩

/-! Generic list lemmas used to reason about `sort_level` and
`merge_config_trees_to_list`: partitioning a list by a key over a
duplicate-free cover of key values is a permutation, and `mapM` in
`Except` succeeds exactly componentwise. -/

theorem flatten_perm_of_forall₂ {α : Type} :
    ∀ {l₁ l₂ : List (List α)}, List.Forall₂ (fun a b => a.Perm b) l₁ l₂ →
    l₁.flatten.Perm l₂.flatten := by
  intro l₁ l₂ h
  induction h with
  | nil => exact List.Perm.refl _
  | cons hab _ ih => exact List.Perm.append hab ih

theorem mapM_ok_forall₂ {α β : Type} (f : α → Except Err β) :
    ∀ (l : List α) (ys : List β), l.mapM f = .ok ys →
    List.Forall₂ (fun a b => f a = .ok b) l ys := by
  intro l
  induction l with
  | nil =>
    intro ys h
    cases h
    exact List.Forall₂.nil
  | cons a as ih =>
    intro ys h
    rw [List.mapM_cons] at h
    cases hfa : f a with
    | error e =>
      rw [hfa] at h
      cases h
    | ok b =>
      rw [hfa] at h
      cases hrest : as.mapM f with
      | error e =>
        rw [hrest] at h
        cases h
      | ok bs =>
        rw [hrest] at h
        cases h
        exact List.Forall₂.cons hfa (ih bs hrest)

theorem filter_cons_of_key_ne {α β : Type} [DecidableEq β] (key : α → β)
    (x : α) (xs : List α) (v : β) (h : key x ≠ v) :
    (x :: xs).filter (fun y => key y == v) = xs.filter (fun y => key y == v) := by
  rw [List.filter_cons]
  simp [h]

theorem partition_pull_head {α β : Type} [DecidableEq β] (key : α → β)
    (x : α) (xs : List α) :
    ∀ (L : List β), L.Nodup → key x ∈ L →
    (L.map (fun v => (x :: xs).filter (fun y => key y == v))).flatten.Perm
      (x :: (L.map (fun v => xs.filter (fun y => key y == v))).flatten) := by
  intro L
  induction L with
  | nil =>
    intro _ hmem
    cases hmem
  | cons v L' ih =>
    intro hnd hmem
    by_cases hv : key x = v
    · have hx : (x :: xs).filter (fun y => key y == v) =
          x :: xs.filter (fun y => key y == v) := by
        rw [List.filter_cons]
        simp [hv]
      have hrest : L'.map (fun w => (x :: xs).filter (fun y => key y == w)) =
          L'.map (fun w => xs.filter (fun y => key y == w)) := by
        apply List.map_congr_left
        intro w hw
        have hwv : key x ≠ w := by
          rw [hv]
          intro hvw
          exact (List.nodup_cons.mp hnd).1 (hvw ▸ hw)
        exact filter_cons_of_key_ne key x xs w hwv
      simp only [List.map_cons, List.flatten_cons, hx, hrest]
      exact List.Perm.refl _
    · have hmem' : key x ∈ L' := by
        cases hmem with
        | head => exact absurd rfl hv
        | tail _ h => exact h
      have hx : (x :: xs).filter (fun y => key y == v) =
          xs.filter (fun y => key y == v) :=
        filter_cons_of_key_ne key x xs v hv
      simp only [List.map_cons, List.flatten_cons, hx]
      refine List.Perm.trans
        (List.Perm.append_left _ (ih (List.nodup_cons.mp hnd).2 hmem')) ?_
      exact List.perm_middle

/-- Partitioning a list by a key function over a duplicate-free list of key
values covering every element is a permutation of the original list. -/
theorem partition_by_key_perm {α β : Type} [DecidableEq β] (key : α → β) :
    ∀ (l : List α) (L : List β), L.Nodup → (∀ x ∈ l, key x ∈ L) →
    (L.map (fun v => l.filter (fun y => key y == v))).flatten.Perm l := by
  intro l
  induction l with
  | nil =>
    intro L _ _
    have h : L.map (fun v => ([] : List α).filter (fun y => key y == v)) =
        L.map (fun _ => ([] : List α)) := by
      apply List.map_congr_left
      intro w _
      rfl
    rw [h]
    have h2 : (L.map (fun _ => ([] : List α))).flatten = [] := by
      induction L with
      | nil => rfl
      | cons v L' ihL => simp [ihL]
    rw [h2]
  | cons x xs ih =>
    intro L hnd hcov
    have h1 := partition_pull_head key x xs L hnd (hcov x (List.mem_cons_self x xs))
    refine List.Perm.trans h1 (List.Perm.cons x ?_)
    exact ih L hnd (fun y hy => hcov y (List.mem_cons_of_mem x hy))

/-! Facts about the per-type grouping registry built by `sort_level`. -/

theorem group_insert_keys (cfg : Item) :
    ∀ (sreg : List (String × List Item)),
    (group_insert sreg cfg).map Prod.fst =
      if cfg.type ∈ sreg.map Prod.fst then sreg.map Prod.fst
      else sreg.map Prod.fst ++ [cfg.type] := by
  intro sreg
  induction sreg with
  | nil => simp [group_insert]
  | cons p rest ih =>
    obtain ⟨t, g⟩ := p
    by_cases ht : t = cfg.type
    · simp [group_insert, ht]
    · have hbt : (t == cfg.type) = false := by simp [ht]
      simp only [group_insert, hbt, Bool.false_eq_true, if_false, List.map_cons, ih]
      by_cases hmem : cfg.type ∈ rest.map Prod.fst
      · simp [hmem, Ne.symm ht]
      · simp [hmem, Ne.symm ht]

theorem group_insert_lookup (cfg : Item) (t : String) :
    ∀ (sreg : List (String × List Item)),
    ((group_insert sreg cfg).lookup t).getD [] =
      (sreg.lookup t).getD [] ++ (if cfg.type == t then [cfg] else []) := by
  intro sreg
  induction sreg with
  | nil =>
    by_cases ht : cfg.type = t
    · simp [group_insert, List.lookup, ht]
    · have h1 : (t == cfg.type) = false := by simp [Ne.symm ht]
      have h2 : (cfg.type == t) = false := by simp [ht]
      simp [group_insert, List.lookup, h1, h2]
  | cons p rest ih =>
    obtain ⟨u, g⟩ := p
    by_cases hu : u = cfg.type
    · have hbu : (u == cfg.type) = true := by simp [hu]
      simp only [group_insert, hbu, if_true]
      by_cases ht : t = u
      · have h1 : (t == u) = true := by simp [ht]
        have h2 : (cfg.type == t) = true := by
          rw [ht, ← hu]
          simp
        simp [List.lookup, h1, h2]
      · have h1 : (t == u) = false := by simp [ht]
        have h2 : (cfg.type == t) = false := by
          rw [← hu]
          simp [Ne.symm ht]
        simp [List.lookup, h1, h2]
    · have hbu : (u == cfg.type) = false := by simp [hu]
      simp only [group_insert, hbu, Bool.false_eq_true, if_false]
      by_cases ht : t = u
      · have h1 : (t == u) = true := by simp [ht]
        have h2 : (cfg.type == t) = false := by
          rw [ht]
          simp only [beq_eq_false_iff_ne, ne_eq]
          intro hc
          exact hu hc.symm
        simp [List.lookup, h1, h2]
      · have h1 : (t == u) = false := by simp [ht]
        simp only [List.lookup, h1]
        exact ih

theorem group_types_fold_lookup (t : String) :
    ∀ (configs : List Item) (sreg0 : List (String × List Item)),
    ((configs.foldl group_insert sreg0).lookup t).getD [] =
      (sreg0.lookup t).getD [] ++ configs.filter (fun c => c.type == t) := by
  intro configs
  induction configs with
  | nil =>
    intro sreg0
    simp
  | cons c cs ih =>
    intro sreg0
    rw [List.foldl_cons, ih (group_insert sreg0 c), group_insert_lookup,
      List.filter_cons]
    by_cases hc : c.type = t
    · have hb : (c.type == t) = true := by simp [hc]
      simp [hb]
    · have hb : (c.type == t) = false := by simp [hc]
      simp [hb]

theorem group_types_lookup (configs : List Item) (t : String) :
    ((group_types configs).lookup t).getD [] =
      configs.filter (fun c => c.type == t) := by
  have h := group_types_fold_lookup t configs []
  simpa [group_types, List.lookup] using h

theorem group_types_fold_keys_sub :
    ∀ (configs : List Item) (sreg0 : List (String × List Item)) (x : String),
    x ∈ sreg0.map Prod.fst → x ∈ (configs.foldl group_insert sreg0).map Prod.fst := by
  intro configs
  induction configs with
  | nil =>
    intro sreg0 x hx
    exact hx
  | cons c cs ih =>
    intro sreg0 x hx
    rw [List.foldl_cons]
    apply ih
    rw [group_insert_keys]
    by_cases hmem : c.type ∈ sreg0.map Prod.fst
    · simp [hmem, hx]
    · simp only [hmem, Bool.false_eq_true, if_false]
      exact List.mem_append_left _ hx

theorem group_types_fold_keys_mem :
    ∀ (configs : List Item) (sreg0 : List (String × List Item)) (c : Item),
    c ∈ configs → c.type ∈ (configs.foldl group_insert sreg0).map Prod.fst := by
  intro configs
  induction configs with
  | nil =>
    intro _ _ hc
    cases hc
  | cons c' cs ih =>
    intro sreg0 c hc
    rw [List.foldl_cons]
    rcases List.mem_cons.mp hc with rfl | hc2
    · apply group_types_fold_keys_sub
      rw [group_insert_keys]
      by_cases hmem : c.type ∈ sreg0.map Prod.fst
      · simp [hmem]
      · simp [hmem]
    · exact ih _ c hc2

theorem group_types_fold_keys_nodup :
    ∀ (configs : List Item) (sreg0 : List (String × List Item)),
    (sreg0.map Prod.fst).Nodup →
    ((configs.foldl group_insert sreg0).map Prod.fst).Nodup := by
  intro configs
  induction configs with
  | nil =>
    intro _ h
    exact h
  | cons c cs ih =>
    intro sreg0 hnd
    rw [List.foldl_cons]
    apply ih
    rw [group_insert_keys]
    by_cases hmem : c.type ∈ sreg0.map Prod.fst
    · simp [hmem, hnd]
    · simp only [hmem, Bool.false_eq_true, if_false]
      simp [List.nodup_append, hnd, hmem]

theorem group_types_keys_nodup (configs : List Item) :
    ((group_types configs).map Prod.fst).Nodup :=
  group_types_fold_keys_nodup configs [] (by simp)

theorem group_types_keys_mem (configs : List Item) (c : Item) (hc : c ∈ configs) :
    c.type ∈ (group_types configs).map Prod.fst :=
  group_types_fold_keys_mem configs [] c hc

theorem sort_one_type_perm (sreg : List (String × List Item)) (t : String)
    (out : List Item) (h : sort_one_type sreg t = .ok out) :
    out.Perm ((sreg.lookup t).getD []) := by
  unfold sort_one_type at h
  split at h
  · cases h
  · unfold sort_by_field at h
    split at h
    · cases h
      exact List.perm_insertionSort _ _
    · cases h

/-- The output of `sort_level` is a permutation of its input: grouping by
type, iterating the distinct type names, and sorting inside each group
neither drops, duplicates, nor invents items. -/
theorem sort_level_perm (configs out : List Item)
    (h : sort_level configs = .ok out) : out.Perm configs := by
  unfold sort_level at h
  cases hm : (((group_types configs).map Prod.fst).insertionSort str_le).mapM
      (sort_one_type (group_types configs)) with
  | error e =>
    rw [hm] at h
    cases h
  | ok groups =>
    rw [hm] at h
    cases h
    have hf := mapM_ok_forall₂ (sort_one_type (group_types configs)) _ _ hm
    have h2 : List.Forall₂ (fun a b => a.Perm b) groups
        ((((group_types configs).map Prod.fst).insertionSort str_le).map
          (fun t => ((group_types configs).lookup t).getD [])) := by
      rw [List.forall₂_map_right_iff]
      exact hf.flip.imp (fun b t hone => sort_one_type_perm _ _ _ hone)
    have h3 := flatten_perm_of_forall₂ h2
    have h4 : (((group_types configs).map Prod.fst).insertionSort str_le).Perm
        ((group_types configs).map Prod.fst) := List.perm_insertionSort _ _
    have h5 := (h4.map (fun t => ((group_types configs).lookup t).getD [])).join
    have h7 : ((group_types configs).map Prod.fst).map
        (fun t => ((group_types configs).lookup t).getD []) =
        ((group_types configs).map Prod.fst).map
          (fun t => configs.filter (fun c => c.type == t)) :=
      List.map_congr_left (fun t _ => group_types_lookup configs t)
    have h8 := partition_by_key_perm Item.type configs
      ((group_types configs).map Prod.fst) (group_types_keys_nodup configs)
      (fun c hc => group_types_keys_mem configs c hc)
    rw [h7] at h5
    exact ((h3.trans h5).trans h8)

/-! Reference characterization of the registry-building fold in
`merge_config_trees_to_list`. -/

/-- The registry entry a nonempty tree contributes: its first key, its
entry count as the level, and its top config. -/
def mk_entry : Config → RegEntry
  | [] => ⟨"", 0, ⟨"", "", []⟩⟩
  | (top, cfg) :: rest => ⟨top, rest.length + 1, cfg⟩

/-- Reference recursion equal to folding `merge_step` over the trees
(first component). -/
def reg_of : List RegEntry → List Config → List RegEntry
  | reg, [] => reg
  | reg, ([] :: ts) => reg_of reg ts
  | reg, (((top, cfg) :: rest) :: ts) =>
    if reg.any (fun e => e.key == top) then reg_of reg ts
    else reg_of (reg ++ [⟨top, rest.length + 1, cfg⟩]) ts

/-- Reference recursion equal to folding `merge_step` over the trees
(second component, the running maximum level). -/
def max_of : Nat → List Config → Nat
  | m, [] => m
  | m, t :: ts => max_of (max m t.length) ts

theorem merge_reg_fold (trees : List Config) :
    ∀ (reg : List RegEntry) (m : Nat), (∀ t ∈ trees, t ≠ []) →
    trees.foldlM merge_step (reg, m) = .ok (reg_of reg trees, max_of m trees) := by
  induction trees with
  | nil =>
    intro reg m _
    rfl
  | cons t ts ih =>
    intro reg m hne
    cases t with
    | nil => exact absurd rfl (hne [] (List.mem_cons_self _ _))
    | cons p rest =>
      obtain ⟨top, cfg⟩ := p
      have hne' : ∀ u ∈ ts, u ≠ [] := fun u hu => hne u (List.mem_cons_of_mem _ hu)
      rw [List.foldlM_cons]
      by_cases hany : reg.any (fun e => e.key == top) = true
      · have hstep : merge_step (reg, m) ((top, cfg) :: rest) =
            .ok (reg, max m (rest.length + 1)) := by
          simp [merge_step, hany]
        have hrhs : reg_of reg (((top, cfg) :: rest) :: ts) = reg_of reg ts := by
          simp [reg_of, hany]
        have hmax : max_of m (((top, cfg) :: rest) :: ts) =
            max_of (max m (rest.length + 1)) ts := by
          simp [max_of]
        rw [hstep, hrhs, hmax]
        exact ih reg (max m (rest.length + 1)) hne'
      · have hstep : merge_step (reg, m) ((top, cfg) :: rest) =
            .ok (reg ++ [⟨top, rest.length + 1, cfg⟩], max m (rest.length + 1)) := by
          simp [merge_step, hany]
        have hrhs : reg_of reg (((top, cfg) :: rest) :: ts) =
            reg_of (reg ++ [⟨top, rest.length + 1, cfg⟩]) ts := by
          simp [reg_of, hany]
        have hmax : max_of m (((top, cfg) :: rest) :: ts) =
            max_of (max m (rest.length + 1)) ts := by
          simp [max_of]
        rw [hstep, hrhs, hmax]
        exact ih _ (max m (rest.length + 1)) hne'

theorem le_max_of : ∀ (trees : List Config) (m : Nat), m ≤ max_of m trees := by
  intro trees
  induction trees with
  | nil => intro m; exact le_rfl
  | cons t ts ih =>
    intro m
    exact le_trans (Nat.le_max_left m t.length) (ih (max m t.length))

theorem tree_length_le_max_of : ∀ (trees : List Config) (m : Nat) (t : Config),
    t ∈ trees → t.length ≤ max_of m trees := by
  intro trees
  induction trees with
  | nil =>
    intro _ _ ht
    cases ht
  | cons u ts ih =>
    intro m t ht
    rcases List.mem_cons.mp ht with rfl | ht2
    · exact le_trans (Nat.le_max_right m t.length) (le_max_of ts (max m t.length))
    · exact ih (max m u.length) t ht2

theorem reg_of_nodup_tops :
    ∀ (trees : List Config) (reg : List RegEntry), (∀ t ∈ trees, t ≠ []) →
    (trees.map (fun t => (mk_entry t).key)).Nodup →
    (∀ t ∈ trees, reg.any (fun e => e.key == (mk_entry t).key) = false) →
    reg_of reg trees = reg ++ trees.map mk_entry := by
  intro trees
  induction trees with
  | nil =>
    intro reg _ _ _
    simp [reg_of]
  | cons t ts ih =>
    intro reg hne hnd hany
    cases t with
    | nil => exact absurd rfl (hne [] (List.mem_cons_self _ _))
    | cons p rest =>
      obtain ⟨top, cfg⟩ := p
      have hany_head := hany _ (List.mem_cons_self _ _)
      have hrw : reg_of reg (((top, cfg) :: rest) :: ts) =
          reg_of (reg ++ [⟨top, rest.length + 1, cfg⟩]) ts := by
        simp only [reg_of]
        rw [show (reg.any (fun e => e.key == top)) = false from hany_head]
        simp
      rw [hrw]
      have hnd' := (List.nodup_cons.mp hnd).2
      have hnotin := (List.nodup_cons.mp hnd).1
      simp only [mk_entry] at hnotin
      have hany' : ∀ u ∈ ts, (reg ++ [(⟨top, rest.length + 1, cfg⟩ : RegEntry)]).any
          (fun e => e.key == (mk_entry u).key) = false := by
        intro u hu
        rw [List.any_append]
        have h1 := hany u (List.mem_cons_of_mem _ hu)
        have h2 : ([(⟨top, rest.length + 1, cfg⟩ : RegEntry)].any
            (fun e => e.key == (mk_entry u).key)) = false := by
          simp only [List.any_cons, List.any_nil, Bool.or_false]
          simp only [beq_eq_false_iff_ne, ne_eq]
          intro hc
          apply hnotin
          rw [hc]
          exact List.mem_map_of_mem (fun v => (mk_entry v).key) hu
        rw [h1, h2]
        rfl
      rw [ih _ (fun u hu => hne u (List.mem_cons_of_mem _ hu)) hnd' hany']
      simp [mk_entry]

/-- Unfolding a successful `merge_config_trees_to_list` (with all trees
nonempty) into its level blocks: block `lvl` is the sorted level-`lvl` slice
of the registry, and the output is the concatenation of the blocks for
levels `0 .. max`. -/
theorem merge_ok_structure (trees : List Config) (merged : List Item)
    (hne : ∀ t ∈ trees, t ≠ [])
    (h : merge_config_trees_to_list trees = .ok merged) :
    ∃ blocks : List (List Item),
      List.Forall₂ (fun lvl block =>
        sort_level (((reg_of [] trees).filter (fun e => e.level == lvl)).map
          RegEntry.config) = .ok block)
        (List.range (max_of 0 trees + 1)) blocks ∧
      merged = blocks.flatten := by
  unfold merge_config_trees_to_list at h
  rw [merge_reg_fold trees [] 0 hne] at h
  simp only [Bind.bind, Except.bind] at h
  cases hm : (List.range (max_of 0 trees + 1)).mapM (fun lvl =>
      sort_level (((reg_of [] trees).filter (fun e => e.level == lvl)).map
        RegEntry.config)) with
  | error e =>
    rw [hm] at h
    cases h
  | ok blocks =>
    rw [hm] at h
    cases h
    exact ⟨blocks, mapM_ok_forall₂ _ _ _ hm, rfl⟩

/-- Levels recorded in the registry are bounded by the running maximum. -/
theorem reg_of_levels_le : ∀ (trees : List Config) (reg : List RegEntry) (m : Nat),
    (∀ e ∈ reg, e.level ≤ m) → ∀ e ∈ reg_of reg trees, e.level ≤ max_of m trees := by
  intro trees
  induction trees with
  | nil =>
    intro reg m hreg e he
    exact hreg e he
  | cons t ts ih =>
    intro reg m hreg e he
    cases t with
    | nil =>
      have hm : max_of m ([] :: ts) = max_of (max m 0) ts := by simp [max_of]
      rw [hm]
      refine ih reg (max m 0) (fun e' he' => le_trans (hreg e' he') (Nat.le_max_left _ _)) e ?_
      simpa [reg_of] using he
    | cons p rest =>
      obtain ⟨top, cfg⟩ := p
      have hm : max_of m (((top, cfg) :: rest) :: ts) =
          max_of (max m (rest.length + 1)) ts := by simp [max_of]
      rw [hm]
      by_cases hany : reg.any (fun e => e.key == top) = true
      · refine ih reg (max m (rest.length + 1))
          (fun e' he' => le_trans (hreg e' he') (Nat.le_max_left _ _)) e ?_
        rw [show reg_of reg (((top, cfg) :: rest) :: ts) = reg_of reg ts from by
          simp [reg_of, hany]] at he
        exact he
      · refine ih (reg ++ [⟨top, rest.length + 1, cfg⟩]) (max m (rest.length + 1))
          ?_ e ?_
        · intro e' he'
          rcases List.mem_append.mp he' with h1 | h1
          · exact le_trans (hreg e' h1) (Nat.le_max_left _ _)
          · rw [List.mem_singleton.mp h1]
            exact Nat.le_max_right _ _
        · rw [show reg_of reg (((top, cfg) :: rest) :: ts) =
              reg_of (reg ++ [⟨top, rest.length + 1, cfg⟩]) ts from by
            simp [reg_of, hany]] at he
          exact he

/-- The merged output is a permutation of the registry's configs. -/
theorem merge_perm_reg (trees : List Config) (merged : List Item)
    (hne : ∀ t ∈ trees, t ≠ [])
    (h : merge_config_trees_to_list trees = .ok merged) :
    merged.Perm ((reg_of [] trees).map RegEntry.config) := by
  obtain ⟨blocks, hf, rfl⟩ := merge_ok_structure trees merged hne h
  have h2 : List.Forall₂ (fun a b => a.Perm b) blocks
      ((List.range (max_of 0 trees + 1)).map (fun lvl =>
        ((reg_of [] trees).filter (fun e => e.level == lvl)).map RegEntry.config)) := by
    rw [List.forall₂_map_right_iff]
    exact hf.flip.imp (fun b lvl hone => sort_level_perm _ _ hone)
  have h3 := flatten_perm_of_forall₂ h2
  have h4 : ((List.range (max_of 0 trees + 1)).map (fun lvl =>
      ((reg_of [] trees).filter (fun e => e.level == lvl)).map RegEntry.config)).flatten =
      (((List.range (max_of 0 trees + 1)).map (fun lvl =>
        (reg_of [] trees).filter (fun e => e.level == lvl))).flatten).map
        RegEntry.config := by
    rw [List.map_flatten, List.map_map]
    rfl
  have h5 := partition_by_key_perm RegEntry.level (reg_of [] trees)
    (List.range (max_of 0 trees + 1)) (List.nodup_range _)
    (fun e he => List.mem_range.mpr
      (Nat.lt_succ_of_le (reg_of_levels_le trees [] 0 (by simp) e he)))
  refine h3.trans ?_
  rw [h4]
  exact h5.map RegEntry.config

/-- Reference description of which configs the merge emits: the first
(top) config of each tree, keeping only the first tree per top id. -/
def dedup_top_configs (seen : List String) : List Config → List Item
  | [] => []
  | ([] :: ts) => dedup_top_configs seen ts
  | (((top, cfg) :: _) :: ts) =>
    if top ∈ seen then dedup_top_configs seen ts
    else cfg :: dedup_top_configs (seen ++ [top]) ts

theorem reg_any_iff_mem_keys (reg : List RegEntry) (top : String) :
    (reg.any (fun e => e.key == top) = true) ↔ top ∈ reg.map RegEntry.key := by
  rw [List.any_eq_true]
  constructor
  · rintro ⟨e, he, hbe⟩
    exact (beq_iff_eq.mp hbe) ▸ List.mem_map_of_mem RegEntry.key he
  · intro hmem
    obtain ⟨e, he, hke⟩ := List.mem_map.mp hmem
    exact ⟨e, he, beq_iff_eq.mpr hke⟩

theorem reg_of_map_config : ∀ (trees : List Config) (reg : List RegEntry),
    (reg_of reg trees).map RegEntry.config =
      reg.map RegEntry.config ++ dedup_top_configs (reg.map RegEntry.key) trees := by
  intro trees
  induction trees with
  | nil =>
    intro reg
    simp [reg_of, dedup_top_configs]
  | cons t ts ih =>
    intro reg
    cases t with
    | nil =>
      show (reg_of reg ts).map RegEntry.config = _
      rw [ih reg]
      rfl
    | cons p rest =>
      obtain ⟨top, cfg⟩ := p
      by_cases hmem : top ∈ reg.map RegEntry.key
      · have hany : reg.any (fun e => e.key == top) = true :=
          (reg_any_iff_mem_keys reg top).mpr hmem
        rw [show reg_of reg (((top, cfg) :: rest) :: ts) = reg_of reg ts from by
          simp [reg_of, hany]]
        rw [ih reg]
        rw [show dedup_top_configs (reg.map RegEntry.key) (((top, cfg) :: rest) :: ts) =
          dedup_top_configs (reg.map RegEntry.key) ts from by
          simp [dedup_top_configs, hmem]]
      · have hany : reg.any (fun e => e.key == top) = false := by
          rw [← Bool.not_eq_true]
          intro hc
          exact hmem ((reg_any_iff_mem_keys reg top).mp hc)
        rw [show reg_of reg (((top, cfg) :: rest) :: ts) =
            reg_of (reg ++ [⟨top, rest.length + 1, cfg⟩]) ts from by
          simp [reg_of, hany]]
        rw [ih (reg ++ [(⟨top, rest.length + 1, cfg⟩ : RegEntry)])]
        rw [show dedup_top_configs (reg.map RegEntry.key) (((top, cfg) :: rest) :: ts) =
          cfg :: dedup_top_configs (reg.map RegEntry.key ++ [top]) ts from by
          simp [dedup_top_configs, hmem]]
        simp

theorem dedup_top_configs_mem : ∀ (trees : List Config) (seen : List String)
    (it : Item), it ∈ dedup_top_configs seen trees →
    ∃ t ∈ trees, ∃ k rest, t = (k, it) :: rest := by
  intro trees
  induction trees with
  | nil =>
    intro _ _ hit
    cases hit
  | cons t ts ih =>
    intro seen it hit
    cases t with
    | nil =>
      obtain ⟨u, hu, hk⟩ := ih seen it hit
      exact ⟨u, List.mem_cons_of_mem _ hu, hk⟩
    | cons p rest =>
      obtain ⟨top, cfg⟩ := p
      by_cases hmem : top ∈ seen
      · rw [show dedup_top_configs seen (((top, cfg) :: rest) :: ts) =
            dedup_top_configs seen ts from by simp [dedup_top_configs, hmem]] at hit
        obtain ⟨u, hu, hk⟩ := ih seen it hit
        exact ⟨u, List.mem_cons_of_mem _ hu, hk⟩
      · rw [show dedup_top_configs seen (((top, cfg) :: rest) :: ts) =
            cfg :: dedup_top_configs (seen ++ [top]) ts from by
          simp [dedup_top_configs, hmem]] at hit
        rcases List.mem_cons.mp hit with rfl | hit2
        · exact ⟨(top, it) :: rest, List.mem_cons_self _ _, top, rest, rfl⟩
        · obtain ⟨u, hu, hk⟩ := ih _ it hit2
          exact ⟨u, List.mem_cons_of_mem _ hu, hk⟩

/-- C9: a successful merge outputs exactly the configs that are the first
entry of some input tree — duplicated top ids contribute nothing beyond the
first tree, and an item appearing only as a non-first entry of trees is
absent; so completeness of the merged list requires one tree per item. -/
theorem c9_merge_outputs_first_entries (trees : List Config) (merged : List Item)
    (hne : ∀ t ∈ trees, t ≠ [])
    (h : merge_config_trees_to_list trees = .ok merged) :
    merged.Perm (dedup_top_configs [] trees) ∧
    ∀ it ∈ merged, ∃ t ∈ trees, ∃ k rest, t = (k, it) :: rest := by
  have h1 := merge_perm_reg trees merged hne h
  have h2 := reg_of_map_config trees []
  simp only [List.map_nil, List.nil_append] at h2
  rw [h2] at h1
  refine ⟨h1, fun it hit => ?_⟩
  exact dedup_top_configs_mem trees [] it (h1.mem_iff.mp hit)

/-- Witness for C9 on the example trees. -/
theorem c9_merge_outputs_first_entries_witness :
    (∀ t ∈ ([[("sda", sda_disk)],
       [("sda1", sda1_part), ("sda", sda_disk), ("sda2", sda2_part)],
       [("sda2", sda2_part), ("sda", sda_disk), ("sda1", sda1_part)]] :
       List Config), t ≠ []) ∧
    merge_config_trees_to_list
      [[("sda", sda_disk)],
       [("sda1", sda1_part), ("sda", sda_disk), ("sda2", sda2_part)],
       [("sda2", sda2_part), ("sda", sda_disk), ("sda1", sda1_part)]] =
      .ok [sda_disk, sda1_part, sda2_part] ∧
    (([sda_disk, sda1_part, sda2_part] : List Item).Perm
      (dedup_top_configs []
        [[("sda", sda_disk)],
         [("sda1", sda1_part), ("sda", sda_disk), ("sda2", sda2_part)],
         [("sda2", sda2_part), ("sda", sda_disk), ("sda1", sda1_part)]]) ∧
     ∀ it ∈ ([sda_disk, sda1_part, sda2_part] : List Item),
       ∃ t ∈ ([[("sda", sda_disk)],
         [("sda1", sda1_part), ("sda", sda_disk), ("sda2", sda2_part)],
         [("sda2", sda2_part), ("sda", sda_disk), ("sda1", sda1_part)]] :
         List Config), ∃ k rest, t = (k, it) :: rest) :=
  ⟨by decide, by decide,
   c9_merge_outputs_first_entries _ _ (by decide) (by decide)⟩

/-- C1 counterexample: sibling discovery puts `sda2` into `sda1`'s
dependency closure (`find_item_dependencies` returns it), yet the merged
list places `sda2` strictly after `sda1` — their dependency trees have the
same size, so tree-size leveling cannot separate mutually dependent
siblings, and `B ∈ closure(A) → B before A` fails as stated. -/
theorem c1_sibling_in_closure_not_before :
    find_item_dependencies 9 "sda1" example_config true =
      .ok (some ["sda", "sda1", "sda2"]) ∧
    get_config_tree 9 "sda1" example_config =
      .ok [("sda1", sda1_part), ("sda", sda_disk), ("sda2", sda2_part)] ∧
    merge_config_trees_to_list
      [[("sda", sda_disk)],
       [("sda1", sda1_part), ("sda", sda_disk), ("sda2", sda2_part)],
       [("sda2", sda2_part), ("sda", sda_disk), ("sda1", sda1_part)]] =
      .ok [sda_disk, sda1_part, sda2_part] := by
  refine ⟨by decide, by decide, by decide⟩

theorem flatten_split {α : Type} :
    ∀ (blocks : List (List α)) (i j : Nat) (hij : i < j)
    (hj : j < blocks.length) (b a : α),
    b ∈ blocks.get ⟨i, Nat.lt_trans hij hj⟩ → a ∈ blocks.get ⟨j, hj⟩ →
    ∃ l₁ l₂ l₃, blocks.flatten = l₁ ++ b :: (l₂ ++ a :: l₃) := by
  intro blocks
  induction blocks with
  | nil =>
    intro i j hij hj b a hb ha
    exact absurd hj (Nat.not_lt_zero j)
  | cons blk rest ih =>
    intro i j hij hj b a hb ha
    cases i with
    | zero =>
      cases j with
      | zero => exact absurd hij (lt_irrefl 0)
      | succ j2 =>
        have hb2 : b ∈ blk := hb
        have ha2 : a ∈ rest.get ⟨j2, Nat.lt_of_succ_lt_succ hj⟩ := ha
        obtain ⟨s, t2, hst⟩ := List.append_of_mem hb2
        have haf : a ∈ rest.flatten :=
          List.mem_flatten.mpr ⟨_, List.get_mem rest _ _, ha2⟩
        obtain ⟨u, v, huv⟩ := List.append_of_mem haf
        refine ⟨s, t2 ++ u, v, ?_⟩
        rw [List.flatten_cons, hst, huv]
        simp
    | succ i2 =>
      cases j with
      | zero => exact absurd hij (by omega)
      | succ j2 =>
        obtain ⟨l₁, l₂, l₃, heq⟩ :=
          ih i2 j2 (Nat.lt_of_succ_lt_succ hij) (Nat.lt_of_succ_lt_succ hj) b a hb ha
        refine ⟨blk ++ l₁, l₂, l₃, ?_⟩
        rw [List.flatten_cons, heq]
        simp

/-- C1 (amended): merging one nonempty tree per item with distinct,
well-formed top ids yields a list holding each top config exactly once
(its ids are duplicate-free), and whenever one item's dependency tree is
strictly smaller than another's — in particular whenever B is in A's
dependency closure with a strictly smaller tree — the smaller-tree item
appears strictly before the larger-tree item.  Items whose trees have
equal sizes (such as mutually dependent siblings) carry no ordering
guarantee. -/
theorem c1_merge_exactly_once_and_level_ordered (trees : List Config)
    (merged : List Item) (hne : ∀ t ∈ trees, t ≠ [])
    (hnd : (trees.map (fun t => (mk_entry t).key)).Nodup)
    (hwf : ∀ t ∈ trees, ∀ p ∈ t, p.2.id = p.1)
    (h : merge_config_trees_to_list trees = .ok merged)
    (kA kB : String) (itA itB : Item) (restA restB : Config)
    (htA : (kA, itA) :: restA ∈ trees) (htB : (kB, itB) :: restB ∈ trees)
    (hlt : restB.length < restA.length) :
    merged.Perm (trees.map (fun t => (mk_entry t).config)) ∧
    (merged.map Item.id).Nodup ∧
    ∃ l₁ l₂ l₃, merged = l₁ ++ itB :: (l₂ ++ itA :: l₃) := by
  have hreg : reg_of [] trees = trees.map mk_entry :=
    reg_of_nodup_tops trees [] hne hnd (fun t ht => rfl)
  have hperm0 := merge_perm_reg trees merged hne h
  rw [hreg, List.map_map] at hperm0
  have hperm : merged.Perm (trees.map (fun t => (mk_entry t).config)) := hperm0
  refine ⟨hperm, ?_, ?_⟩
  · have hmapeq : (trees.map (fun t => (mk_entry t).config)).map Item.id =
        trees.map (fun t => (mk_entry t).key) := by
      rw [List.map_map]
      apply List.map_congr_left
      intro t ht
      cases t with
      | nil => exact absurd rfl (hne [] ht)
      | cons p rest =>
        obtain ⟨k, it⟩ := p
        show it.id = k
        exact hwf _ ht (k, it) (List.mem_cons_self _ _)
    have h2 := (hperm.map Item.id).nodup_iff
    rw [hmapeq] at h2
    exact h2.mpr hnd
  · obtain ⟨blocks, hf, rfl⟩ := merge_ok_structure trees merged hne h
    have hlen : blocks.length = max_of 0 trees + 1 := by
      rw [← hf.length_eq, List.length_range]
    have hBbound : restB.length + 1 < max_of 0 trees + 1 := by
      have := tree_length_le_max_of trees 0 _ htB
      simp only [List.length_cons] at this
      omega
    have hAbound : restA.length + 1 < max_of 0 trees + 1 := by
      have := tree_length_le_max_of trees 0 _ htA
      simp only [List.length_cons] at this
      omega
    have hfg := List.forall₂_iff_get.mp hf
    have hblockB := hfg.2 (restB.length + 1)
      (by rw [List.length_range]; exact hBbound) (by rw [hlen]; exact hBbound)
    have hblockA := hfg.2 (restA.length + 1)
      (by rw [List.length_range]; exact hAbound) (by rw [hlen]; exact hAbound)
    rw [List.get_range] at hblockB hblockA
    have hpermB := sort_level_perm _ _ hblockB
    have hpermA := sort_level_perm _ _ hblockA
    have hmemB : itB ∈ ((reg_of [] trees).filter
        (fun e => e.level == restB.length + 1)).map RegEntry.config := by
      rw [hreg]
      refine List.mem_map.mpr ⟨mk_entry ((kB, itB) :: restB), ?_, rfl⟩
      refine List.mem_filter.mpr ⟨List.mem_map_of_mem mk_entry htB, ?_⟩
      simp [mk_entry]
    have hmemA : itA ∈ ((reg_of [] trees).filter
        (fun e => e.level == restA.length + 1)).map RegEntry.config := by
      rw [hreg]
      refine List.mem_map.mpr ⟨mk_entry ((kA, itA) :: restA), ?_, rfl⟩
      refine List.mem_filter.mpr ⟨List.mem_map_of_mem mk_entry htA, ?_⟩
      simp [mk_entry]
    have hinB : itB ∈ blocks.get ⟨restB.length + 1, by rw [hlen]; exact hBbound⟩ :=
      hpermB.mem_iff.mpr hmemB
    have hinA : itA ∈ blocks.get ⟨restA.length + 1, by rw [hlen]; exact hAbound⟩ :=
      hpermA.mem_iff.mpr hmemA
    exact flatten_split blocks (restB.length + 1) (restA.length + 1)
      (by omega) (by rw [hlen]; exact hAbound) itB itA hinB hinA

/-- Witness for C1 (amended) on the example trees: the disk tree (1 entry)
is strictly smaller than the `sda1` partition tree (3 entries), so
`sda_disk` appears before `sda1_part`. -/
theorem c1_merge_exactly_once_and_level_ordered_witness :
    (∀ t ∈ ([[("sda", sda_disk)],
       [("sda1", sda1_part), ("sda", sda_disk), ("sda2", sda2_part)],
       [("sda2", sda2_part), ("sda", sda_disk), ("sda1", sda1_part)]] :
       List Config), t ≠ []) ∧
    (([[("sda", sda_disk)],
       [("sda1", sda1_part), ("sda", sda_disk), ("sda2", sda2_part)],
       [("sda2", sda2_part), ("sda", sda_disk), ("sda1", sda1_part)]] :
       List Config).map (fun t => (mk_entry t).key)).Nodup ∧
    (([sda_disk, sda1_part, sda2_part] : List Item).Perm
      (([[("sda", sda_disk)],
         [("sda1", sda1_part), ("sda", sda_disk), ("sda2", sda2_part)],
         [("sda2", sda2_part), ("sda", sda_disk), ("sda1", sda1_part)]] :
         List Config).map (fun t => (mk_entry t).config)) ∧
     (([sda_disk, sda1_part, sda2_part] : List Item).map Item.id).Nodup ∧
     ∃ l₁ l₂ l₃, ([sda_disk, sda1_part, sda2_part] : List Item) =
       l₁ ++ sda_disk :: (l₂ ++ sda1_part :: l₃)) :=
  ⟨by decide, by decide,
   c1_merge_exactly_once_and_level_ordered
     [[("sda", sda_disk)],
      [("sda1", sda1_part), ("sda", sda_disk), ("sda2", sda2_part)],
      [("sda2", sda2_part), ("sda", sda_disk), ("sda1", sda1_part)]]
     [sda_disk, sda1_part, sda2_part] (by decide) (by decide)
     (by decide) (by decide) "sda1" "sda" sda1_part sda_disk
     [("sda", sda_disk), ("sda2", sda2_part)] [] (by decide) (by decide)
     (by decide)⟩
